import Mathlib

/-!
Shallow embedding of the script expansion engine of `cozmo_controller.py`
(class `ScriptInterpreter`, `load_script_file`, `CommandParser.parse_command`,
and the command-processing skeleton of `main`).

Python strings are modelled as Lean `String`s processed through their
`List Char` data; Python `int` as `Int`; Python `float` as `Rat` (exact
rationals standing in for IEEE doubles — no claim below depends on
floating-point rounding, and the rendering of non-integral floats is a
best-effort decimal expansion).  Python exceptions that the source does not
catch are modelled with `Except PyErr`.  `print` diagnostics are collected in
an explicit log list inside the interpreter state.
-/

namespace Cozmo

/-! ### Python string primitives -/

/-- The whitespace characters of Python's `str.strip` / `\s`. -/
def pyWs (c : Char) : Bool :=
  c = ' ' || c = '\t' || c = '\n' || c = '\r' || c = Char.ofNat 11 || c = Char.ofNat 12

/-- Python regex `\w` (word character), ASCII fragment. -/
def wordChar (c : Char) : Bool :=
  c.isAlphanum || c = '_'

/-- `str.strip()` on the character list. -/
def stripChars (l : List Char) : List Char :=
  ((l.dropWhile pyWs).reverse.dropWhile pyWs).reverse

/-- Python `line.strip()`. -/
def pyStrip (s : String) : String :=
  ⟨stripChars s.data⟩

/-- Python `str.lower()`, ASCII fragment. -/
def pyLower (s : String) : String :=
  ⟨s.data.map Char.toLower⟩

/-- Python `s.startswith(p)`. -/
def pyStartsWith (s p : String) : Bool :=
  p.data.isPrefixOf s.data

/-- Python substring test `p in s`, on character lists. -/
def containsSub (p : List Char) : List Char → Bool
  | [] => p.isEmpty
  | c :: t => p.isPrefixOf (c :: t) || containsSub p t

/-- Python `p in s` for strings. -/
def pyContains (s p : String) : Bool :=
  containsSub p.data s.data

/-- Split at the first occurrence of `p`, i.e. Python `s.split(p, 1)` when
`p in s`; `none` when `p` does not occur. -/
def splitOnceChars (p : List Char) : List Char → Option (List Char × List Char)
  | [] => if p.isEmpty then some ([], []) else none
  | c :: t =>
    if p.isPrefixOf (c :: t) then some ([], (c :: t).drop p.length)
    else (splitOnceChars p t).map (fun q => (c :: q.1, q.2))

/-- Python `s.split(op, 1)` (first two pieces), `none` if `op` not present. -/
def pySplitOnce (s op : String) : Option (String × String) :=
  (splitOnceChars op.data s.data).map (fun q => (⟨q.1⟩, ⟨q.2⟩))

/-- Python `s.split()` (split on whitespace runs, no empty tokens); `acc?`
is the current token (reversed) when one is open. -/
def simpleSplitAux (acc? : Option (List Char)) : List Char → List (List Char)
  | [] =>
    match acc? with
    | none => []
    | some a => [a.reverse]
  | c :: t =>
    match acc? with
    | none =>
      if pyWs c then simpleSplitAux none t else simpleSplitAux (some [c]) t
    | some a =>
      if pyWs c then a.reverse :: simpleSplitAux none t
      else simpleSplitAux (some (c :: a)) t

/-- Python `s.split()` for strings. -/
def pySimpleSplit (s : String) : List String :=
  (simpleSplitAux none s.data).map (fun l => ⟨l⟩)

/-- Require at least one whitespace character, then skip the run (regex `\s+`). -/
def wsPlus : List Char → Option (List Char)
  | [] => none
  | c :: t => if pyWs c then some (t.dropWhile pyWs) else none

/-- Decimal digit run to a natural number. -/
def digitsToNat (l : List Char) : Nat :=
  l.foldl (fun acc c => acc * 10 + (c.toNat - 48)) 0

/-- Python lexicographic (code point) string comparison `a < b`. -/
def charsLt : List Char → List Char → Bool
  | [], [] => false
  | [], _ :: _ => true
  | _ :: _, [] => false
  | a :: xs, b :: ys =>
    if a.toNat < b.toNat then true
    else if b.toNat < a.toNat then false
    else charsLt xs ys

def pyStrLt (a b : String) : Bool := charsLt a.data b.data

/-! ### Values stored in the interpreter's variable map -/

/-- A Python scalar held in `self.variables`: `int`, `float` (as an exact
rational) or `str`. -/
inductive Value
  | vInt (n : Int)
  | vFloat (q : Rat)
  | vStr (s : String)
deriving DecidableEq

/-- Left-pad with zeros to width `w`. -/
def padZeros (w : Nat) (s : String) : String :=
  ⟨List.replicate (w - s.data.length) '0' ++ s.data⟩

/-- Best-effort model of Python's `str(float)`: exact decimal expansion when
the denominator divides a power of ten (every value the interpreter's
arithmetic actually produces from decimal literals and `/` over them that is
rendered in the claims is integral); otherwise a fraction notation that no
claim relies on. -/
def renderFloat (q : Rat) : String :=
  if q.den = 1 then toString q.num ++ ".0"
  else
    match (List.range 28).find? (fun k => 10 ^ k % q.den = 0) with
    | some k =>
      let scaled : Nat := q.num.natAbs * (10 ^ k / q.den)
      let whole : Nat := scaled / 10 ^ k
      let frac : Nat := scaled % 10 ^ k
      (if q.num < 0 then "-" else "") ++ toString whole ++ "." ++
        padZeros k (toString frac)
    | none => toString q.num ++ "/" ++ toString q.den

/-- Python `str(value)` for a stored scalar. -/
def pyStr : Value → String
  | .vInt n => toString n
  | .vFloat q => renderFloat q
  | .vStr s => s

/-! ### The variable store -/

/-- `self.variables`: a mapping from name to scalar. -/
def Store : Type := String → Option Value

def Store.set (st : Store) (k : String) (v : Value) : Store :=
  fun n => if n = k then some v else st n

def Store.del (st : Store) (k : String) : Store :=
  fun n => if n = k then none else st n

def Store.empty : Store := fun _ => none

/-! ### `_expand_variables` — two sequential `re.sub` passes -/

/-- `str(self.variables.get(name, ''))`. -/
def lookupStr (vars : Store) (name : String) : String :=
  match vars name with
  | some v => pyStr v
  | none => ""

/-- The scanner state of a `re.sub` pass for `\$\{(\w+)\}`: plain scanning,
just consumed a `$`, or collecting the `\w+` after `${` (reversed). -/
inductive BraceMode
  | scan
  | dollar
  | word (accRev : List Char)

/-- First pass: `re.sub(r'\$\{(\w+)\}', repl, line)`.  Replacement text is
not re-scanned within this pass (`re.sub` resumes after the substituted
text).  On a failed match attempt the scan resumes one position after the
`$`; none of the characters skipped inside the attempt (`{` and word
characters) can start a new match, so they are emitted verbatim and only
the failure character is redispatched. -/
def subBraceAux (vars : Store) : BraceMode → List Char → List Char
  | .scan, [] => []
  | .scan, c :: t =>
    if c = '$' then subBraceAux vars .dollar t
    else c :: subBraceAux vars .scan t
  | .dollar, [] => ['$']
  | .dollar, c :: t =>
    if c = '{' then subBraceAux vars (.word []) t
    else
      '$' ::
        (if c = '$' then subBraceAux vars .dollar t
         else c :: subBraceAux vars .scan t)
  | .word accRev, [] => '$' :: '{' :: accRev.reverse
  | .word accRev, c :: t =>
    if wordChar c then subBraceAux vars (.word (c :: accRev)) t
    else if c = '}' && !accRev.isEmpty then
      (lookupStr vars ⟨accRev.reverse⟩).data ++ subBraceAux vars .scan t
    else
      '$' :: '{' ::
        (accRev.reverse ++
          (if c = '$' then subBraceAux vars .dollar t
           else c :: subBraceAux vars .scan t))

def subBrace (vars : Store) (l : List Char) : List Char :=
  subBraceAux vars .scan l

/-- Second pass: `re.sub(r'\$(\w+)', repl, line)` on the first pass's
output; `acc?` holds the `\w+` collected after a `$` (reversed). -/
def subDollarAux (vars : Store) : Option (List Char) → List Char → List Char
  | none, [] => []
  | none, c :: t =>
    if c = '$' then subDollarAux vars (some []) t
    else c :: subDollarAux vars none t
  | some accRev, [] =>
    if accRev.isEmpty then ['$']
    else (lookupStr vars ⟨accRev.reverse⟩).data
  | some accRev, c :: t =>
    if wordChar c then subDollarAux vars (some (c :: accRev)) t
    else
      (if accRev.isEmpty then ['$'] else (lookupStr vars ⟨accRev.reverse⟩).data) ++
        (if c = '$' then subDollarAux vars (some []) t
         else c :: subDollarAux vars none t)

def subDollar (vars : Store) (l : List Char) : List Char :=
  subDollarAux vars none l

/-- `ScriptInterpreter._expand_variables`: the `${name}` substitution pass
followed by the `$name` substitution pass on its output. -/
def expandVariables (vars : Store) (s : String) : String :=
  ⟨subDollar vars (subBrace vars s.data)⟩

/-! ### `_evaluate_expression` — Python `eval` restricted to
`[\d\s\+\-\*\/\%\(\)\.]+`.

The only expressions the restricted character set admits are arithmetic over
`int`/`float` literals with `+ - * / // % ** ( )` and unary signs, so `eval`
is modelled by a recursive-descent parser/evaluator with Python's numeric
semantics (`/` true division, `//` floor division, `%` with the divisor's
sign, `**` right-associative and binding tighter than unary minus).  Any
error (`SyntaxError`, `ZeroDivisionError`, …) is `none`, matching the bare
`except: pass` in the source.  Two knowingly coarse points, both unreachable
from any theorem below: floats are exact rationals, and a fractional
exponent (whose Python value is an irrational real) is treated as an
evaluation error. -/

/-- A Python number: `int` or `float`. -/
inductive PyNum
  | i (n : Int)
  | f (q : Rat)
deriving DecidableEq

def PyNum.toQ : PyNum → Rat
  | .i n => (n : Rat)
  | .f q => q

def pyAdd : PyNum → PyNum → PyNum
  | .i a, .i b => .i (a + b)
  | a, b => .f (a.toQ + b.toQ)

def pySub : PyNum → PyNum → PyNum
  | .i a, .i b => .i (a - b)
  | a, b => .f (a.toQ - b.toQ)

def pyMul : PyNum → PyNum → PyNum
  | .i a, .i b => .i (a * b)
  | a, b => .f (a.toQ * b.toQ)

/-- Python `/` (true division): always a float, error on zero divisor. -/
def pyDiv (a b : PyNum) : Option PyNum :=
  if b.toQ = 0 then none else some (.f (a.toQ / b.toQ))

/-- Python `//` (floor division). -/
def pyFloorDiv (a b : PyNum) : Option PyNum :=
  match a, b with
  | .i x, .i y => if y = 0 then none else some (.i (Int.fdiv x y))
  | _, _ => if b.toQ = 0 then none else some (.f ((⌊a.toQ / b.toQ⌋ : Int) : Rat))

/-- Python `%`: remainder with the divisor's sign. -/
def pyMod (a b : PyNum) : Option PyNum :=
  match a, b with
  | .i x, .i y => if y = 0 then none else some (.i (Int.fmod x y))
  | _, _ =>
    if b.toQ = 0 then none
    else some (.f (a.toQ - b.toQ * ((⌊a.toQ / b.toQ⌋ : Int) : Rat)))

/-- Python `**` on the numbers reachable here (a fractional exponent is a
modelling error, see above). -/
def pyPow (a b : PyNum) : Option PyNum :=
  match b with
  | .i e =>
    if 0 ≤ e then
      match a with
      | .i n => some (.i (n ^ e.toNat))
      | .f q => some (.f (q ^ e.toNat))
    else if a.toQ = 0 then none else some (.f (a.toQ ^ e))
  | .f e =>
    if e.den = 1 then
      if 0 ≤ e.num then some (.f (a.toQ ^ e.num.toNat))
      else if a.toQ = 0 then none else some (.f (a.toQ ^ e.num))
    else none

/-- A numeric literal: `\d+`, `\d+.\d*` or `.\d+` (as Python's tokenizer
accepts inside the safe character set). -/
def parseNumLit (l : List Char) : Option (PyNum × List Char) :=
  let intPart := l.takeWhile Char.isDigit
  let rest := l.dropWhile Char.isDigit
  match rest with
  | '.' :: r2 =>
    let fracPart := r2.takeWhile Char.isDigit
    let rest2 := r2.dropWhile Char.isDigit
    if intPart.isEmpty && fracPart.isEmpty then none
    else
      some (.f ((digitsToNat intPart : Rat) +
        (digitsToNat fracPart : Rat) / ((10 : Rat) ^ fracPart.length)), rest2)
  | _ =>
    if intPart.isEmpty then none
    else some (.i (digitsToNat intPart : Int), rest)

def skipWs (l : List Char) : List Char := l.dropWhile pyWs

mutual

/-- `addsub := muldiv (('+'|'-') muldiv)*`. -/
def parseAdd (fuel : Nat) (l : List Char) : Option (PyNum × List Char) :=
  match fuel with
  | 0 => none
  | fuel + 1 =>
    match parseMul fuel l with
    | none => none
    | some (v, r) => parseAddLoop fuel v r

def parseAddLoop (fuel : Nat) (acc : PyNum) (l : List Char) :
    Option (PyNum × List Char) :=
  match fuel with
  | 0 => none
  | fuel + 1 =>
    match skipWs l with
    | '+' :: r =>
      match parseMul fuel r with
      | none => none
      | some (v, r2) => parseAddLoop fuel (pyAdd acc v) r2
    | '-' :: r =>
      match parseMul fuel r with
      | none => none
      | some (v, r2) => parseAddLoop fuel (pySub acc v) r2
    | _ => some (acc, l)

/-- `muldiv := unary (('*'|'/'|'//'|'%') unary)*` (single `*` and `/` only;
`**` belongs to `parsePower` and `//` is floor division). -/
def parseMul (fuel : Nat) (l : List Char) : Option (PyNum × List Char) :=
  match fuel with
  | 0 => none
  | fuel + 1 =>
    match parseUnary fuel l with
    | none => none
    | some (v, r) => parseMulLoop fuel v r

def parseMulLoop (fuel : Nat) (acc : PyNum) (l : List Char) :
    Option (PyNum × List Char) :=
  match fuel with
  | 0 => none
  | fuel + 1 =>
    match skipWs l with
    | '*' :: '*' :: _ => some (acc, l)
    | '*' :: r =>
      match parseUnary fuel r with
      | none => none
      | some (v, r2) => parseMulLoop fuel (pyMul acc v) r2
    | '/' :: '/' :: r =>
      match parseUnary fuel r with
      | none => none
      | some (v, r2) =>
        match pyFloorDiv acc v with
        | none => none
        | some w => parseMulLoop fuel w r2
    | '/' :: r =>
      match parseUnary fuel r with
      | none => none
      | some (v, r2) =>
        match pyDiv acc v with
        | none => none
        | some w => parseMulLoop fuel w r2
    | '%' :: r =>
      match parseUnary fuel r with
      | none => none
      | some (v, r2) =>
        match pyMod acc v with
        | none => none
        | some w => parseMulLoop fuel w r2
    | _ => some (acc, l)

/-- `u_expr := ('+'|'-') u_expr | power`. -/
def parseUnary (fuel : Nat) (l : List Char) : Option (PyNum × List Char) :=
  match fuel with
  | 0 => none
  | fuel + 1 =>
    match skipWs l with
    | '-' :: r =>
      match parseUnary fuel r with
      | none => none
      | some (v, r2) => some (pySub (.i 0) v, r2)
    | '+' :: r => parseUnary fuel r
    | _ => parsePower fuel l

/-- `power := atom ['**' u_expr]` (right associative, binds tighter than a
unary minus on its left). -/
def parsePower (fuel : Nat) (l : List Char) : Option (PyNum × List Char) :=
  match fuel with
  | 0 => none
  | fuel + 1 =>
    match parseAtom fuel l with
    | none => none
    | some (v, r) =>
      match skipWs r with
      | '*' :: '*' :: r2 =>
        match parseUnary fuel r2 with
        | none => none
        | some (e, r3) =>
          match pyPow v e with
          | none => none
          | some w => some (w, r3)
      | _ => some (v, r)

/-- `atom := number | '(' addsub ')'`.  (A genuinely empty `()` is a Python
tuple; it is modelled as a syntax error — no numeric comparison or store
operation on a tuple occurs in any claim.) -/
def parseAtom (fuel : Nat) (l : List Char) : Option (PyNum × List Char) :=
  match fuel with
  | 0 => none
  | fuel + 1 =>
    match skipWs l with
    | '(' :: r =>
      match parseAdd fuel r with
      | none => none
      | some (v, r2) =>
        match skipWs r2 with
        | ')' :: r3 => some (v, r3)
        | _ => none
    | r => parseNumLit r

end

/-- The regex gate `^[\d\s\+\-\*\/\%\(\)\.]+$` in `_evaluate_expression`. -/
def arithChar (c : Char) : Bool :=
  c.isDigit || pyWs c ||
    c = '+' || c = '-' || c = '*' || c = '/' || c = '%' ||
    c = '(' || c = ')' || c = '.'

/-- `eval(expr)` on a string that passed the regex gate.  The fuel is ample
for any expression of this length: every recursion level either consumes a
character first or descends one grammar level (of which there are six). -/
def pyEvalArith (s : String) : Option PyNum :=
  match parseAdd (8 * s.data.length + 8) s.data with
  | none => none
  | some (v, r) => if (skipWs r).isEmpty then some v else none

/-- `ScriptInterpreter._evaluate_expression`: expand variables, then when
the expanded string matches the safe-character regex, evaluate it (an
integral `float` result is normalised to `int`); on a regex mismatch or any
evaluation error the expanded string itself is returned. -/
def evalExpr (vars : Store) (e : String) : Value :=
  let x := expandVariables vars e
  if !x.data.isEmpty && x.data.all arithChar then
    match pyEvalArith x with
    | some (.i n) => .vInt n
    | some (.f q) => if q.den = 1 then .vInt q.num else .vFloat q
    | none => .vStr x
  else .vStr x

/-! ### `_evaluate_condition` -/

/-- A Python exception that the interpreter does not catch and that
therefore aborts the whole process. -/
inductive PyErr
  | typeError
  | valueError
deriving DecidableEq

instance {ε α : Type} [DecidableEq ε] [DecidableEq α] :
    DecidableEq (Except ε α) := fun a b =>
  match a, b with
  | .error x, .error y =>
    if h : x = y then .isTrue (by rw [h])
    else .isFalse (fun hc => h (Except.error.inj hc))
  | .ok x, .ok y =>
    if h : x = y then .isTrue (by rw [h])
    else .isFalse (fun hc => h (Except.ok.inj hc))
  | .error _, .ok _ => .isFalse (fun hc => Except.noConfusion hc)
  | .ok _, .error _ => .isFalse (fun hc => Except.noConfusion hc)

/-- Python `float(s)` for the strings reachable from the condition
evaluator: optional surrounding whitespace, optional sign, digits with an
optional decimal point and an optional exponent (`inf`/`nan` spellings are
not modelled; no claim touches them). -/
def parsePyFloat (s : String) : Option Rat :=
  let l := skipWs s.data
  let (sign, l1) : Rat × List Char :=
    match l with
    | '-' :: r => (-1, r)
    | '+' :: r => (1, r)
    | r => (1, r)
  let intPart := l1.takeWhile Char.isDigit
  let r1 := l1.dropWhile Char.isDigit
  let (fracPart, r2) : List Char × List Char :=
    match r1 with
    | '.' :: rr => (rr.takeWhile Char.isDigit, rr.dropWhile Char.isDigit)
    | _ => ([], r1)
  if intPart.isEmpty && fracPart.isEmpty then none
  else
    let mantissa : Rat :=
      (digitsToNat intPart : Rat) +
        (digitsToNat fracPart : Rat) / ((10 : Rat) ^ fracPart.length)
    match r2 with
    | 'e' :: r3 | 'E' :: r3 =>
      let (esign, r4) : Int × List Char :=
        match r3 with
        | '-' :: rr => (-1, rr)
        | '+' :: rr => (1, rr)
        | rr => (1, rr)
      let eDigits := r4.takeWhile Char.isDigit
      let r5 := r4.dropWhile Char.isDigit
      if eDigits.isEmpty || !(skipWs r5).isEmpty then none
      else some (sign * mantissa * (10 : Rat) ^ (esign * (digitsToNat eDigits : Int)))
    | r3 => if (skipWs r3).isEmpty then some (sign * mantissa) else none

/-- The type a side of a comparison has after the conversion step:
`float(..)` or `str(..)`. -/
inductive Cmpbl
  | num (q : Rat)
  | str (s : String)
deriving DecidableEq

/-- `float(v) if '.' in str(v) or isinstance(v, (int, float))`, `none` when
`float(..)` raises `ValueError` (string containing `'.'` that does not parse
as a float). -/
def toCmp : Value → Option Cmpbl
  | .vInt n => some (.num (n : Rat))
  | .vFloat q => some (.num q)
  | .vStr s =>
    if s.data.contains '.' then (parsePyFloat s).map .num
    else some (.str s)

/-- `str(..)` of a side that was already converted in the `try` block before
the other side raised. -/
def cmpblStr : Cmpbl → String
  | .num q => renderFloat q
  | .str s => s

/-- The `try`/`except` conversion of both sides: if either `float(..)` call
raises, both sides fall back to strings — the left one from its
possibly-already-converted state. -/
def convertPair (l r : Value) : Cmpbl × Cmpbl :=
  match toCmp l with
  | none => (.str (pyStr l), .str (pyStr r))
  | some a =>
    match toCmp r with
    | some b => (a, b)
    | none => (.str (cmpblStr a), .str (pyStr r))

/-- The comparison itself, which in the source sits *outside* the
`try`/`except`: Python `==`/`!=` between a number and a string are `False`/
`True`, but `< <= > >=` between them raise `TypeError`. -/
def pyCompare (op : String) (a b : Cmpbl) : Except PyErr Bool :=
  match a, b with
  | .num x, .num y =>
    if op = "==" then .ok (x = y)
    else if op = "!=" then .ok (x ≠ y)
    else if op = ">=" then .ok (y ≤ x)
    else if op = "<=" then .ok (x ≤ y)
    else if op = ">" then .ok (y < x)
    else .ok (x < y)
  | .str x, .str y =>
    if op = "==" then .ok (x = y)
    else if op = "!=" then .ok (x ≠ y)
    else if op = ">=" then .ok (!pyStrLt x y)
    else if op = "<=" then .ok (!pyStrLt y x)
    else if op = ">" then .ok (pyStrLt y x)
    else .ok (pyStrLt x y)
  | _, _ =>
    if op = "==" then .ok false
    else if op = "!=" then .ok true
    else .error .typeError

/-- The operator priority list of `_evaluate_condition`. -/
def condOps : List String := ["==", "!=", ">=", "<=", ">", "<"]

/-- `bool(condition and condition.lower() not in ('false','0','no','off'))`. -/
def truthy (c : String) : Bool :=
  !c.data.isEmpty && !(["false", "0", "no", "off"].contains (pyLower c))

/-- The body of the operator hit: `parts[0]`/`parts[1]` are stripped,
expression-evaluated, converted and compared. -/
def compareSides (vars : Store) (op lhs rhs : String) : Except PyErr Bool :=
  let lv := evalExpr vars (pyStrip lhs)
  let rv := evalExpr vars (pyStrip rhs)
  let p := convertPair lv rv
  pyCompare op p.1 p.2

/-- The `for op in operators` loop: the first operator of the priority list
that occurs anywhere in the condition splits it at that operator's first
occurrence; both sides are expression-evaluated and compared. -/
def tryOps (vars : Store) : List String → String → Except PyErr Bool
  | [], c => .ok (truthy c)
  | op :: rest, c =>
    match pySplitOnce c op with
    | some (lhs, rhs) => compareSides vars op lhs rhs
    | none => tryOps vars rest c

/-- `ScriptInterpreter._evaluate_condition`. -/
def evalCondition (vars : Store) (cond : String) : Except PyErr Bool :=
  tryOps vars condOps (expandVariables vars cond)

/-- The operator `_evaluate_condition` selects: the first operator in the
priority list `== != >= <= > <` that occurs *anywhere* in the expanded
condition string. -/
def condOp (c : String) : Option String :=
  condOps.find? (fun op => pyContains c op)

/-! ### Interpreter state and file system -/

/-- The mutable state of a `ScriptInterpreter` plus the stream of `print`ed
diagnostics (in chronological order). -/
structure IState where
  vars : Store
  subs : String → Option (List String)
  logs : List String

def IState.log (st : IState) (m : String) : IState :=
  { st with logs := st.logs ++ [m] }

def initState : IState :=
  { vars := Store.empty, subs := fun _ => none, logs := [] }

/-- The file system visible to `load_script_file`: resolved path ↦ lines
(each already `rstrip('\n\r')`-ed, as the reader produces them). -/
structure FS where
  files : String → Option (List String)

/-- `Path(p).is_absolute()` on POSIX. -/
def isAbsolutePath (p : String) : Bool := pyStartsWith p "/"

/-- `base_dir / p`. -/
def joinPath (base p : String) : String := base ++ "/" ++ p

/-- `Path(p).resolve()` — the model uses already-normalised paths, so
resolution is the identity. -/
def resolvePath (p : String) : String := p

/-- `Path(p).parent`. -/
def parentPath (p : String) : String :=
  let l := p.data
  if l.contains '/' then
    let pre := ((l.reverse.dropWhile (fun c => c ≠ '/')).drop 1).reverse
    if pre.isEmpty then "/" else ⟨pre⟩
  else "."

/-- `self.max_iterations` (set to `1000` in `__init__` and never changed). -/
def maxIterations : Nat := 1000

/-- The iteration-ceiling diagnostic of `_handle_for`. -/
def forLoopWarning : String :=
  "Warning: For loop exceeded max iterations (" ++ toString maxIterations ++ ")"

/-- The iteration-ceiling diagnostic of `_handle_while`. -/
def whileLoopWarning : String :=
  "Warning: While loop exceeded max iterations (" ++ toString maxIterations ++ ")"

/-! ### Directive parsers (the `re.match` calls of the handlers) -/

/-- Consume the literal keyword case-insensitively (the `re.IGNORECASE`
regexes; `k` is given in lowercase). -/
def dropCI : List Char → List Char → Option (List Char)
  | [], l => some l
  | k :: ks, c :: t => if c.toLower = k then dropCI ks t else none
  | _ :: _, [] => none

/-- `^while\s+(.+)$` (ignorecase), with the handler's `.strip()` of the
group applied. -/
def parseWhile (line : String) : Option String :=
  match dropCI "while".data line.data with
  | none => none
  | some r1 =>
    match wsPlus r1 with
    | none => none
    | some r2 => if r2.isEmpty then none else some (pyStrip ⟨r2⟩)

/-- `^if\s+(.+)$` (ignorecase), group `.strip()`ped. -/
def parseIf (line : String) : Option String :=
  match dropCI "if".data line.data with
  | none => none
  | some r1 =>
    match wsPlus r1 with
    | none => none
    | some r2 => if r2.isEmpty then none else some (pyStrip ⟨r2⟩)

/-- `^include\s+(.+)$` (ignorecase), group `.strip()`ped. -/
def parseInclude (line : String) : Option String :=
  match dropCI "include".data line.data with
  | none => none
  | some r1 =>
    match wsPlus r1 with
    | none => none
    | some r2 => if r2.isEmpty then none else some (pyStrip ⟨r2⟩)

/-- `^for\s+(\w+)\s+in\s+(.+)$` (ignorecase): loop variable and the raw
values text. -/
def parseFor (line : String) : Option (String × String) :=
  match dropCI "for".data line.data with
  | none => none
  | some r1 =>
    match wsPlus r1 with
    | none => none
    | some r2 =>
      let name := r2.takeWhile wordChar
      if name.isEmpty then none
      else
        match wsPlus (r2.dropWhile wordChar) with
        | none => none
        | some r3 =>
          match dropCI "in".data r3 with
          | none => none
          | some r4 =>
            match wsPlus r4 with
            | none => none
            | some r5 => if r5.isEmpty then none else some (⟨name⟩, ⟨r5⟩)

/-- `^call\s+(\w+)(?:\s+(.*))?$` (ignorecase): subroutine name and argument
text (`''` when the optional group is absent). -/
def parseCall (line : String) : Option (String × String) :=
  match dropCI "call".data line.data with
  | none => none
  | some r1 =>
    match wsPlus r1 with
    | none => none
    | some r2 =>
      let name := r2.takeWhile wordChar
      if name.isEmpty then none
      else
        match r2.dropWhile wordChar with
        | [] => some (⟨name⟩, "")
        | c :: t => if pyWs c then some (⟨name⟩, ⟨t.dropWhile pyWs⟩) else none

/-- `^set\s+(\w+)\s*=?\s*(.*)$` (ignorecase): variable name and the raw
value text. -/
def parseSet (line : String) : Option (String × String) :=
  match dropCI "set".data line.data with
  | none => none
  | some r1 =>
    match wsPlus r1 with
    | none => none
    | some r2 =>
      let name := r2.takeWhile wordChar
      if name.isEmpty then none
      else
        let r3 := (r2.dropWhile wordChar).dropWhile pyWs
        let r4 := match r3 with
          | '=' :: t => t
          | _ => r3
        some (⟨name⟩, ⟨r4.dropWhile pyWs⟩)

/-- `^(\d+)\.\.(\d+)(?:\s+step\s+(\d+))?$` (case sensitive) on the values
text of a `for`: `(start, end, step)` with the default step 1. -/
def parseRange (s : String) : Option (Nat × Nat × Nat) :=
  let l := s.data
  let d1 := l.takeWhile Char.isDigit
  if d1.isEmpty then none
  else
    match l.dropWhile Char.isDigit with
    | '.' :: '.' :: r1 =>
      let d2 := r1.takeWhile Char.isDigit
      if d2.isEmpty then none
      else
        match r1.dropWhile Char.isDigit with
        | [] => some (digitsToNat d1, digitsToNat d2, 1)
        | c :: t =>
          if pyWs c then
            match t.dropWhile pyWs with
            | 's' :: 't' :: 'e' :: 'p' :: r3 =>
              match wsPlus r3 with
              | none => none
              | some r4 =>
                let d3 := r4.takeWhile Char.isDigit
                if d3.isEmpty then none
                else if (r4.dropWhile Char.isDigit).isEmpty then
                  some (digitsToNat d1, digitsToNat d2, digitsToNat d3)
                else none
            | _ => none
          else none
    | _ => none

/-- `list(range(a, b, s))` for `s > 0`. -/
def pyRange (a b s : Nat) : List Int :=
  (List.range' a ((b - a + s - 1) / s) s).map Int.ofNat

/-- The quote stripping shared by `_handle_set` and `_handle_include`
(`value[1:-1]` when the value starts and ends with the same quote). -/
def stripQuotes (v : String) : String :=
  match v.data with
  | [] => v
  | c :: t =>
    if (c = Char.ofNat 34 && v.data.getLast? = some (Char.ofNat 34)) ||
       (c = Char.ofNat 39 && v.data.getLast? = some (Char.ofNat 39)) then
      ⟨t.dropLast⟩
    else v

/-! ### `_split_values` / `_split_respecting_quotes` — `shlex.split` with a
plain-`split` fallback on `ValueError`. -/

/-- The scanner state of the POSIX `shlex` model. -/
inductive ShMode
  | norm
  | inSingle
  | inDouble
deriving DecidableEq

/-- `shlex.split`: whitespace-separated tokens with `'…'`/`"…"` quoting and
backslash escapes (`none` = `ValueError`, e.g. an unterminated quote). -/
def shlexAux (mode : ShMode) (accRev : List Char) (inTok : Bool) :
    List Char → Option (List (List Char))
  | [] =>
    match mode with
    | .norm => if inTok then some [accRev.reverse] else some []
    | _ => none
  | c :: t =>
    match mode with
    | .norm =>
      if pyWs c then
        if inTok then (shlexAux .norm [] false t).map (accRev.reverse :: ·)
        else shlexAux .norm [] false t
      else if c = Char.ofNat 39 then shlexAux .inSingle accRev true t
      else if c = Char.ofNat 34 then shlexAux .inDouble accRev true t
      else if c = Char.ofNat 92 then
        match t with
        | [] => none
        | d :: t2 => shlexAux .norm (d :: accRev) true t2
      else shlexAux .norm (c :: accRev) true t
    | .inSingle =>
      if c = Char.ofNat 39 then shlexAux .norm accRev true t
      else shlexAux .inSingle (c :: accRev) true t
    | .inDouble =>
      if c = Char.ofNat 34 then shlexAux .norm accRev true t
      else if c = Char.ofNat 92 then
        match t with
        | [] => none
        | d :: t2 =>
          if d = Char.ofNat 34 || d = Char.ofNat 92 then
            shlexAux .inDouble (d :: accRev) true t2
          else shlexAux .inDouble (d :: Char.ofNat 92 :: accRev) true t2
      else shlexAux .inDouble (c :: accRev) true t

/-- `ScriptInterpreter._split_values` (and, identically,
`CommandParser._split_respecting_quotes`). -/
def splitValues (s : String) : List String :=
  match shlexAux .norm [] false s.data with
  | some ts => ts.map (fun l => (⟨l⟩ : String))
  | none => pySimpleSplit s

/-! ### Block boundary scanners -/

/-- `_find_block_end`, relative to the lines after the construct's own line:
returns the block's lines and the position of the matching closer (`none`
when the block runs to the end of input).  The nesting counter goes negative
on foreign closers exactly as the Python `int` does. -/
def findBlockEnd (kw : String) : List String → Int → List String × Option Nat
  | [], _ => ([], none)
  | l :: t, nested =>
    let low := pyLower (pyStrip l)
    if pyStartsWith low "for " || pyStartsWith low "while " ||
        pyStartsWith low "if " then
      let p := findBlockEnd kw t (nested + 1)
      (l :: p.1, p.2.map (· + 1))
    else if low = "endfor" || low = "endwhile" || low = "endif" then
      if nested = 0 && low = kw then ([], some 0)
      else
        let p := findBlockEnd kw t (nested - 1)
        (l :: p.1, p.2.map (· + 1))
    else
      let p := findBlockEnd kw t nested
      (l :: p.1, p.2.map (· + 1))

/-- Appends a scanned line to the branch selected by `found_else`. -/
def ifScanLine (l : String) (foundElse : Bool)
    (p : List String × List String × Option Nat) :
    List String × List String × Option Nat :=
  if foundElse then (p.1, l :: p.2.1, p.2.2.map (· + 1))
  else (l :: p.1, p.2.1, p.2.2.map (· + 1))

/-- The `if`/`else`/`endif` scanner of `_handle_if` (which counts only
nested `if `s): the two branches and the position of the matching `endif`
relative to the lines after the `if` line. -/
def ifScan : List String → Int → Bool → List String × List String × Option Nat
  | [], _, _ => ([], [], none)
  | l :: t, nested, foundElse =>
    let low := pyLower (pyStrip l)
    if pyStartsWith low "if " then
      ifScanLine l foundElse (ifScan t (nested + 1) foundElse)
    else if low = "endif" then
      if nested = 0 then ([], [], some 0)
      else ifScanLine l foundElse (ifScan t (nested - 1) foundElse)
    else if low = "else" && nested = 0 then
      let p := ifScan t nested true
      (p.1, p.2.1, p.2.2.map (· + 1))
    else ifScanLine l foundElse (ifScan t nested foundElse)

/-! ### Subroutine extraction (`_extract_subroutines`) -/

/-- The inner `def` body collector: returns the captured body (raw lines)
and the lines after the matching `enddef`; an unclosed `def` consumes to end
of input. -/
def collectDef : List String → Nat → List String × List String
  | [], _ => ([], [])
  | l :: t, depth =>
    let low := pyLower (pyStrip l)
    if pyStartsWith low "def " then
      (l :: (collectDef t (depth + 1)).1, (collectDef t (depth + 1)).2)
    else if low = "enddef" then
      if depth = 1 then ([], t)
      else (l :: (collectDef t (depth - 1)).1, (collectDef t (depth - 1)).2)
    else (l :: (collectDef t depth).1, (collectDef t depth).2)

theorem collectDef_rem_le (t : List String) (d : Nat) :
    (collectDef t d).2.length ≤ t.length := by
  induction t generalizing d with
  | nil => simp [collectDef]
  | cons l ls ih =>
    simp only [collectDef, List.length_cons]
    split
    · exact Nat.le_succ_of_le (ih (d + 1))
    · split
      · split
        · exact Nat.le_succ _
        · exact Nat.le_succ_of_le (ih (d - 1))
      · exact Nat.le_succ_of_le (ih d)

/-- `line.split(None, 1)[1].strip()` for a line known to start with
`def␣`. -/
def splitDefName (s : String) : Option String :=
  let rest := (s.data.drop 3).dropWhile pyWs
  if rest.isEmpty then none else some (pyStrip ⟨rest⟩)

/-- `ScriptInterpreter._extract_subroutines`: pulls `def NAME … enddef`
blocks into the subroutine table and returns the remaining lines.  `fuel`
only makes the recursion structural: every step consumes at least one line
(`collectDef_rem_le`), so with the wrapper's `fuel = lines.length + 1` the
`0` case is unreachable. -/
def extractSubsAux : Nat → List String → IState → List String × IState
  | 0, _, st => ([], st)
  | _ + 1, [], st => ([], st)
  | fuel + 1, l :: t, st =>
    let s := pyStrip l
    if pyStartsWith (pyLower s) "def " then
      match splitDefName s with
      | none => extractSubsAux fuel t (st.log ("Error: Invalid def syntax: " ++ s))
      | some name =>
        extractSubsAux fuel (collectDef t 1).2
          { st with
            subs := fun n => if n = name then some (collectDef t 1).1 else st.subs n }
    else
      let p := extractSubsAux fuel t st
      (l :: p.1, p.2)

def extractSubs (lines : List String) (st : IState) : List String × IState :=
  extractSubsAux (lines.length + 1) lines st

/-! ### `load_script_file` without an interpreter, and `_handle_include`

`_handle_include` invokes `load_script_file(include_path,
include_path.parent)` — with the default `visited=None` (a fresh visited
set) and `interpreter=None`, so the nested load takes the fallback branch:
the file's lines are stripped, blank/comment lines dropped, and everything
else returned verbatim with no include resolution and no preprocessing. -/

def loadScriptFileFallback (fs : FS) (filepath : String) (visited : List String)
    (st : IState) : List String × IState :=
  let fp := resolvePath filepath
  if visited.contains fp then
    ([], st.log ("Warning: Skipping already included file: " ++ fp))
  else
    match fs.files fp with
    | none => ([], st.log ("Error reading file " ++ fp))
    | some ls =>
      ((ls.map pyStrip).filter (fun l => !l.data.isEmpty && !pyStartsWith l "#"), st)

/-- `ScriptInterpreter._handle_include`. -/
def handleInclude (fs : FS) (baseDir : Option String) (line : String)
    (st : IState) : List String × IState :=
  match parseInclude line with
  | none => ([], st)
  | some arg0 =>
    let arg := stripQuotes arg0
    let path :=
      match baseDir with
      | some b => if isAbsolutePath arg then arg else joinPath b arg
      | none => arg
    if (fs.files path).isSome then loadScriptFileFallback fs path [] st
    else ([], st.log ("Error: Include file not found: " ++ path))

/-- `ScriptInterpreter._handle_set`. -/
def handleSet (line : String) (st : IState) : IState :=
  match parseSet line with
  | none => st.log ("Error: Invalid set syntax: " ++ line)
  | some (name, rawv) =>
    let v0 := stripQuotes (pyStrip rawv)
    let v := evalExpr st.vars v0
    { st with
      vars := st.vars.set name v
      logs := st.logs ++ ["  [set " ++ name ++ " = " ++ pyStr v ++ "]"] }

/-! ### The loop engines -/

/-- The per-value loop of `_handle_for`: snapshot the loop variable, bind
it, expand the block, restore, iterate (stopping with a warning at the
iteration ceiling). -/
def forIter (exp : List String → IState → Except PyErr (List String × IState))
    (varName : String) (block : List String) :
    List Value → IState → Nat → Except PyErr (List String × IState)
  | [], st, _ => .ok ([], st)
  | v :: vs, st, iter =>
    if iter ≥ maxIterations then
      .ok ([], st.log forLoopWarning)
    else
      let old := st.vars varName
      match exp block { st with vars := st.vars.set varName v } with
      | .error e => .error e
      | .ok (out, st2) =>
        let st3 : IState :=
          { st2 with
            vars :=
              match old with
              | some w => st2.vars.set varName w
              | none => st2.vars.del varName }
        match forIter exp varName block vs st3 (iter + 1) with
        | .error e => .error e
        | .ok (restOut, st4) => .ok (out ++ restOut, st4)

/-- The condition-driven loop of `_handle_while`: the condition is
re-evaluated against the current store before every round, and the
iteration ceiling check sits after it.  The source counts `iteration`
upwards and breaks at `iteration >= self.max_iterations`; here `remaining =
max_iterations - iteration` counts down (the counter appears in no output),
so the ceiling check is `remaining = 0` and the loop starts at
`maxIterations`. -/
def whileIter (exp : List String → IState → Except PyErr (List String × IState))
    (cond : String) (block : List String) :
    Nat → IState → Except PyErr (List String × IState)
  | remaining, st =>
    match evalCondition st.vars cond with
    | .error e => .error e
    | .ok false => .ok ([], st)
    | .ok true =>
      match remaining with
      | 0 =>
        .ok ([], st.log whileLoopWarning)
      | r + 1 =>
        match exp block st with
        | .error e => .error e
        | .ok (out, st2) =>
          match whileIter exp cond block r st2 with
          | .error e => .error e
          | .ok (restOut, st3) => .ok (out ++ restOut, st3)

/-! ### The construct handlers

Each handler receives the stripped construct line and the lines *after* it,
and returns, besides its output and the new state, how many of those
following lines the construct consumed (Python's `end_idx + 1 - (start +
1)`; the cursor resumes after them). -/

/-- `ScriptInterpreter._handle_for`. -/
def handleFor (exp : List String → IState → Except PyErr (List String × IState))
    (line : String) (rest : List String) (st : IState) :
    Except PyErr (List String × IState × Nat) :=
  match parseFor line with
  | none => .ok ([], st.log ("Error: Invalid for syntax: " ++ line), 0)
  | some (varName, rawValues) =>
    let valuesStr := pyStrip rawValues
    let values? : Except PyErr (List Value) :=
      match parseRange valuesStr with
      | some (a, b, s) =>
        if s = 0 then .error .valueError  -- range() arg 3 must not be zero
        else .ok ((pyRange a (b + 1) s).map Value.vInt)
      | none => .ok ((splitValues valuesStr).map Value.vStr)
    match values? with
    | .error e => .error e
    | .ok values =>
      let p := findBlockEnd "endfor" rest 0
      let st1 :=
        match p.2 with
        | none => st.log "Warning: No matching endfor found"
        | some _ => st
      match forIter exp varName p.1 values st1 0 with
      | .error e => .error e
      | .ok (out, st2) =>
        .ok (out, st2, match p.2 with | some k => k + 1 | none => rest.length)

/-- `ScriptInterpreter._handle_while`. -/
def handleWhile (exp : List String → IState → Except PyErr (List String × IState))
    (line : String) (rest : List String) (st : IState) :
    Except PyErr (List String × IState × Nat) :=
  match parseWhile line with
  | none => .ok ([], st.log ("Error: Invalid while syntax: " ++ line), 0)
  | some cond =>
    let p := findBlockEnd "endwhile" rest 0
    let st1 :=
      match p.2 with
      | none => st.log "Warning: No matching endwhile found"
      | some _ => st
    match whileIter exp cond p.1 maxIterations st1 with
    | .error e => .error e
    | .ok (out, st2) =>
      .ok (out, st2, match p.2 with | some k => k + 1 | none => rest.length)

/-- `ScriptInterpreter._handle_if` (`idx` is the position of the `if` line,
used only in the diagnostic). -/
def handleIf (exp : List String → IState → Except PyErr (List String × IState))
    (line : String) (rest : List String) (idx : Nat) (st : IState) :
    Except PyErr (List String × IState × Nat) :=
  match parseIf line with
  | none => .ok ([], st.log ("Error: Invalid if syntax: " ++ line), 0)
  | some cond =>
    let p := ifScan rest 0 false
    match p.2.2 with
    | none =>
      .ok ([], st.log ("Error: No matching endif for if at line " ++
        toString (idx + 1)), 0)
    | some k =>
      match evalCondition st.vars cond with
      | .error e => .error e
      | .ok b =>
        match exp (if b then p.1 else p.2.1) st with
        | .error e => .error e
        | .ok (out, st2) => .ok (out, st2, k + 1)

/-- Binds the call arguments as `$1 … $k`. -/
def bindArgs (vars : Store) (args : List String) (i : Nat) : Store :=
  match args with
  | [] => vars
  | a :: t => bindArgs (vars.set (toString i) (.vStr a)) t (i + 1)

/-- Restores the numbered variables from the snapshots, in binding order:
an absent old value deletes the binding (`elif key in self.variables:
del`). -/
def restoreArgs (vars : Store) : List (String × Option Value) → Store
  | [] => vars
  | (k, some v) :: t => restoreArgs (vars.set k v) t
  | (k, none) :: t =>
    restoreArgs (if (vars k).isSome then vars.del k else vars) t

/-- `ScriptInterpreter._handle_call`. -/
def handleCall (exp : List String → IState → Except PyErr (List String × IState))
    (line : String) (st : IState) : Except PyErr (List String × IState) :=
  match parseCall line with
  | none => .ok ([], st.log ("Error: Invalid call syntax: " ++ line))
  | some (name, argsStr) =>
    match st.subs name with
    | none => .ok ([], st.log ("Error: Subroutine not found: " ++ name))
    | some body =>
      let args := splitValues argsStr
      let olds := (List.range args.length).map
        (fun j => (toString (j + 1), st.vars (toString (j + 1))))
      match exp body { st with vars := bindArgs st.vars args 1 } with
      | .error e => .error e
      | .ok (out, st2) =>
        .ok (out, { st2 with vars := restoreArgs st2.vars olds })

/-! ### `_expand_block` -/

/-- The line cursor of `_expand_block` (its `while i < len(lines)` loop).
`exp` is the recursive expansion of nested blocks at `depth + 1`, `idx` the
absolute position of the current line (used only in a diagnostic).  `fuel`
only makes the recursion structural: every step consumes at least one line,
so with the wrapper's `fuel = lines.length + 1` the `0` case is
unreachable. -/
def cursorAux (fs : FS) (baseDir : Option String)
    (exp : List String → IState → Except PyErr (List String × IState)) :
    Nat → List String → Nat → IState → Except PyErr (List String × IState)
  | 0, _, _, st => .ok ([], st)
  | _ + 1, [], _, st => .ok ([], st)
  | fuel + 1, l :: rest, idx, st =>
    let s := pyStrip l
    if s.data.isEmpty || pyStartsWith s "#" then
      cursorAux fs baseDir exp fuel rest (idx + 1) st
    else
      let low := pyLower s
      if pyStartsWith low "include " then
        let p := handleInclude fs baseDir s st
        match cursorAux fs baseDir exp fuel rest (idx + 1) p.2 with
        | .error e => .error e
        | .ok (out, st2) => .ok (p.1 ++ out, st2)
      else if pyStartsWith low "set " then
        cursorAux fs baseDir exp fuel rest (idx + 1) (handleSet s st)
      else if pyStartsWith low "for " then
        match handleFor exp s rest st with
        | .error e => .error e
        | .ok (out, st1, dcount) =>
          match cursorAux fs baseDir exp fuel (rest.drop dcount) (idx + 1 + dcount) st1 with
          | .error e => .error e
          | .ok (out2, st2) => .ok (out ++ out2, st2)
      else if pyStartsWith low "while " then
        match handleWhile exp s rest st with
        | .error e => .error e
        | .ok (out, st1, dcount) =>
          match cursorAux fs baseDir exp fuel (rest.drop dcount) (idx + 1 + dcount) st1 with
          | .error e => .error e
          | .ok (out2, st2) => .ok (out ++ out2, st2)
      else if pyStartsWith low "if " then
        match handleIf exp s rest idx st with
        | .error e => .error e
        | .ok (out, st1, dcount) =>
          match cursorAux fs baseDir exp fuel (rest.drop dcount) (idx + 1 + dcount) st1 with
          | .error e => .error e
          | .ok (out2, st2) => .ok (out ++ out2, st2)
      else if pyStartsWith low "call " then
        match handleCall exp s st with
        | .error e => .error e
        | .ok (out, st1) =>
          match cursorAux fs baseDir exp fuel rest (idx + 1) st1 with
          | .error e => .error e
          | .ok (out2, st2) => .ok (out ++ out2, st2)
      else if low = "else" || low = "endif" || low = "endfor" ||
          low = "endwhile" || low = "enddef" then
        cursorAux fs baseDir exp fuel rest (idx + 1)
          (st.log ("Warning: Unexpected " ++ s ++ " at line " ++ toString (idx + 1)))
      else
        match cursorAux fs baseDir exp fuel rest (idx + 1) st with
        | .error e => .error e
        | .ok (out, st2) => .ok (expandVariables st.vars s :: out, st2)

def cursor (fs : FS) (baseDir : Option String)
    (exp : List String → IState → Except PyErr (List String × IState))
    (lines : List String) (idx : Nat) (st : IState) :
    Except PyErr (List String × IState) :=
  cursorAux fs baseDir exp (lines.length + 1) lines idx st

/-- `ScriptInterpreter._expand_block`, with `gas = 51 - depth`: the source's
`if depth > 50: return []` guard is `gas = 0`, and every nested expansion at
`depth + 1` runs at `gas - 1`.  The top-level call (depth 0) uses gas 51. -/
def expandBlock (fs : FS) (baseDir : Option String) :
    Nat → List String → IState → Except PyErr (List String × IState)
  | 0, _, st => .ok ([], st.log "Error: Maximum nesting depth exceeded")
  | g + 1, lines, st => cursor fs baseDir (expandBlock fs baseDir g) lines 0 st

/-- `ScriptInterpreter.preprocess`. -/
def preprocess (fs : FS) (baseDir : Option String) (lines : List String)
    (st : IState) : Except PyErr (List String × IState) :=
  let p := extractSubs lines st
  expandBlock fs baseDir 51 p.1 p.2

/-- `load_script_file` in full.  The `useInterp` flag is whether an
interpreter was passed (`main` passes one for the top-level script;
`_handle_include` does not). -/
def loadScriptFile (fs : FS) (filepath : String) (baseDirArg : Option String)
    (visited : List String) (useInterp : Bool) (st : IState) :
    Except PyErr (List String × IState) :=
  if useInterp then
    let fp := resolvePath filepath
    if visited.contains fp then
      .ok ([], st.log ("Warning: Skipping already included file: " ++ fp))
    else
      let baseDir := baseDirArg.getD (parentPath fp)
      match fs.files fp with
      | none => .ok ([], st.log ("Error reading file " ++ fp))
      | some ls => preprocess fs (some baseDir) ls st
  else .ok (loadScriptFileFallback fs filepath visited st)

/-- The top-level script load of `main`: a fresh `ScriptInterpreter`, a
fresh visited set, no explicit base dir. -/
def runScript (fs : FS) (path : String) : Except PyErr (List String × IState) :=
  loadScriptFile fs path none [] true initState

/-! ### `CommandParser.parse_command` and the command loop of `main` -/

/-- A typed option value (the type of the schema default drives parsing). -/
inductive OptVal
  | b (v : Bool)
  | i (n : Int)
  | f (q : Rat)
  | s (v : String)
  | none'
deriving DecidableEq

/-- One entry of `CommandParser.COMMANDS` (the `desc` field is never read by
`parse_command`). -/
structure CmdSpec where
  args : List String
  opts : List (String × OptVal)
  varargs : Bool
deriving DecidableEq

/-- `CommandParser.COMMANDS`. -/
def commandTable : List (String × CmdSpec) := [
  ("connect", ⟨[], [], false⟩),
  ("status", ⟨[], [], false⟩),
  ("wait", ⟨[], [], false⟩),
  ("say", ⟨["text"],
    [("volume", .i 65535), ("voice", .s "en-us"), ("speed", .i 150),
     ("pitch", .i 50), ("amplitude", .i 100), ("async", .b false)], true⟩),
  ("volume", ⟨["level"], [], false⟩),
  ("move", ⟨["distance"], [("speed", .i 100), ("async", .b false)], false⟩),
  ("turn", ⟨["angle"], [("async", .b false)], false⟩),
  ("goto", ⟨["x", "y"], [("angle", .i 0), ("async", .b false)], false⟩),
  ("head", ⟨[], [("angle", .s "middle"), ("async", .b false)], true⟩),
  ("lift", ⟨["speed"], [("duration", .f 1), ("async", .b false)], false⟩),
  ("lights", ⟨[], [("color", .s "blue"), ("colors", .none')], false⟩),
  ("ir", ⟨[], [("enable", .b true)], false⟩),
  ("cliff", ⟨[], [("enable", .b true), ("reaction", .s "backup")], false⟩),
  ("calibrate", ⟨[], [("head", .b true), ("lift", .b true)], false⟩),
  ("animate", ⟨["name"], [("async", .b false)], false⟩),
  ("anim-group", ⟨["group"], [("async", .b false)], false⟩),
  ("list-anims", ⟨[], [("search", .none')], false⟩),
  ("list-groups", ⟨[], [("search", .none')], false⟩),
  ("list-sounds", ⟨[], [("search", .none')], false⟩),
  ("play-sound", ⟨[],
    [("name", .none'), ("file", .none'), ("async", .b false)], true⟩),
  ("camera", ⟨[], [("output", .s "camera_capture.jpg")], false⟩),
  ("battery", ⟨[], [("mode", .s "icon"), ("duration", .f 5)], false⟩),
  ("screen", ⟨["text"],
    [("duration", .f 5), ("size", .i 12), ("x", .i 5), ("y", .i 10)], true⟩)]

/-- Python `int(s)` on a string (whitespace, optional sign, digits). -/
def parsePyInt (s : String) : Option Int :=
  let l := skipWs s.data
  let p : Int × List Char :=
    match l with
    | '-' :: r => (-1, r)
    | '+' :: r => (1, r)
    | r => (1, r)
  let ds := p.2.takeWhile Char.isDigit
  if ds.isEmpty then none
  else if (skipWs (p.2.dropWhile Char.isDigit)).isEmpty then
    some (p.1 * (digitsToNat ds : Int))
  else none

/-- `opts.find` by key. -/
def optLookup (opts : List (String × OptVal)) (k : String) : Option OptVal :=
  (opts.find? (fun p => p.1 = k)).map (fun p => p.2)

/-- `dict` assignment `opts[key] = value` (overwrite in place or append). -/
def setOpt (opts : List (String × OptVal)) (k : String) (w : OptVal) :
    List (String × OptVal) :=
  if opts.any (fun p => p.1 = k) then
    opts.map (fun p => if p.1 = k then (k, w) else p)
  else opts ++ [(k, w)]

/-- Parse an option value according to its schema default's type
(`_parse_bool` / `int()` / `float()` / raw string; a `None` default takes
the raw-string branch). -/
def parseOptVal (dflt : OptVal) (value : String) : Except String OptVal :=
  match dflt with
  | .b _ =>
    if ["true", "yes", "on", "1"].contains (pyLower value) then .ok (.b true)
    else if ["false", "no", "off", "0"].contains (pyLower value) then .ok (.b false)
    else .error ("Cannot parse '" ++ pyLower value ++ "' as boolean")
  | .i _ =>
    match parsePyInt value with
    | some n => .ok (.i n)
    | none => .error ("invalid literal for int(): " ++ value)
  | .f _ =>
    match parsePyFloat value with
    | some q => .ok (.f q)
    | none => .error ("could not convert string to float: " ++ value)
  | .s _ => .ok (.s value)
  | .none' => .ok (.s value)

/-- The `while i < len(parts)` loop of `parse_command`, followed by the
required-argument check. -/
def parseParts (cmd : String) (info : CmdSpec) :
    List String → List String → List (String × OptVal) → Nat →
    Except String (List String × List (String × OptVal))
  | [], args, opts, argIdx =>
    if argIdx < info.args.length then
      .error ("Command '" ++ cmd ++ "' requires " ++
        toString info.args.length ++ " arguments")
    else .ok (args, opts)
  | part :: t, args, opts, argIdx =>
    match pySplitOnce part "=" with
    | some (k, v) =>
      match optLookup info.opts k with
      | some dflt =>
        match parseOptVal dflt v with
        | .error m => .error m
        | .ok w => parseParts cmd info t args (setOpt opts k w) argIdx
      | none =>
        .error ("Unknown option '" ++ k ++ "' for command '" ++ cmd ++ "'")
    | none =>
      if argIdx < info.args.length then
        parseParts cmd info t (args ++ [part]) opts (argIdx + 1)
      else if info.varargs then
        parseParts cmd info t (args ++ [part]) opts (argIdx + 1)
      else .error ("Too many arguments for command '" ++ cmd ++ "'")

/-- Add the schema defaults for options not given on the line, in table
order. -/
def fillDefaults (opts : List (String × OptVal)) :
    List (String × OptVal) → List (String × OptVal)
  | [] => opts
  | (k, d) :: t =>
    fillDefaults (if opts.any (fun p => p.1 = k) then opts else opts ++ [(k, d)]) t

/-- A parsed command: the `(cmd, args, opts)` triple. -/
structure Parsed where
  cmd : String
  args : List String
  opts : List (String × OptVal)
deriving DecidableEq

/-- `CommandParser.parse_command`: `.error` is a raised `ValueError`,
`.ok none` is the `return None` on an empty split. -/
def parseCommand (cmdStr : String) : Except String (Option Parsed) :=
  match splitValues cmdStr with
  | [] => .ok none
  | cmd :: parts =>
    match (commandTable.find? (fun p => p.1 = cmd)).map (fun p => p.2) with
    | none => .error ("Unknown command: " ++ cmd)
    | some info =>
      match parseParts cmd info parts [] [] 0 with
      | .error m => .error m
      | .ok (args, opts) =>
        .ok (some { cmd := cmd, args := args, opts := fillDefaults opts info.opts })

/-- The fate of one `main` invocation on a command list, as far as command
processing is concerned.

* `parseFailure bad msg`: the parse-all loop hit a `ValueError` on line
  `bad`; `main` prints the error and returns 1 — before `needs_connection`
  is computed, before any robot connection is attempted and before any
  `execute_command` call.
* `crashTypeError`: all lines parsed, but an empty line parsed to `None`
  and `cmd[0]` in the `needs_connection` generator raised.
* `execute cmds b`: the fully parsed list `cmds` is executed in order
  (`b` = a connection is attempted first). -/
inductive RunOutcome
  | parseFailure (badCmd msg : String)
  | crashTypeError
  | execute (cmds : List (Option Parsed)) (needsConnection : Bool)
deriving DecidableEq

/-- The `offline_commands` set of `main`. -/
def offlineCommands : List String :=
  ["list-anims", "list-groups", "list-sounds", "help"]

/-- The parse-all-first loop of `main` (`for cmd_str in commands_raw: …
except ValueError: … return 1`): the first `ValueError` aborts with the
offending line. -/
def parseAll : List String → Except (String × String) (List (Option Parsed))
  | [] => .ok []
  | c :: t =>
    match parseCommand c with
    | .error m => .error (c, m)
    | .ok p =>
      match parseAll t with
      | .error e => .error e
      | .ok ps => .ok (p :: ps)

/-- `any(cmd[0] not in offline_commands for cmd in commands)`: lazy, and
`cmd[0]` on a `None` entry raises `TypeError`. -/
def needsConn : List (Option Parsed) → Except Unit Bool
  | [] => .ok false
  | some q :: t =>
    if offlineCommands.contains q.cmd then needsConn t else .ok true
  | none :: _ => .error ()

/-- The command-processing skeleton of `main` on an already-assembled raw
command list (CLI words or a fully expanded script). -/
def mainRun (raw : List String) : RunOutcome :=
  match parseAll raw with
  | .error e => .parseFailure e.1 e.2
  | .ok cmds =>
    match needsConn cmds with
    | .error _ => .crashTypeError
    | .ok b => .execute cmds b

/-! ### Observers and predicates used by the claim statements -/

/-- The control keywords of the script language. -/
def controlKeywords : List String :=
  ["for", "endfor", "while", "endwhile", "if", "else", "endif",
   "def", "enddef", "call", "set", "include"]

/-- The leading (first whitespace-delimited) token of a line. -/
def firstToken (s : String) : String :=
  (pySimpleSplit s).headD ""

/-- A line that `_expand_block` treats as a plain command: non-blank,
non-comment, not dispatched to any construct handler and not a stray
closer.  The conjuncts mirror the dispatch conditions of the cursor
exactly. -/
def isLiteralLine (l : String) : Bool :=
  let s := pyStrip l
  let low := pyLower s
  !(s.data.isEmpty || pyStartsWith s "#") &&
  !pyStartsWith low "include " && !pyStartsWith low "set " &&
  !pyStartsWith low "for " && !pyStartsWith low "while " &&
  !pyStartsWith low "if " && !pyStartsWith low "call " &&
  !(low = "else" || low = "endif" || low = "endfor" || low = "endwhile" ||
    low = "enddef")

/-- The final interpreter state of a handler returning `(out, st', consumed)`,
with a fallback for the raised-exception case (in which the Python process
dies and no post-state is observable). -/
def okState3 (r : Except PyErr (List String × IState × Nat)) (dflt : IState) :
    IState :=
  match r with
  | .ok p => p.2.1
  | .error _ => dflt

/-- The final interpreter state of an expansion result, with a fallback for
the raised-exception case. -/
def okState (r : Except PyErr (List String × IState)) (dflt : IState) : IState :=
  match r with
  | .ok p => p.2
  | .error _ => dflt

/-- The operator-selection rule as the claim states it: scan the condition
left to right and take the first operator occurrence, breaking ties at the
same position by the priority order `== != >= <= > <`.  (Spec-side
definition, to be compared with the source's `condOp`.) -/
def specLeftmostOp : List Char → Option String
  | [] => none
  | c :: t =>
    match condOps.find? (fun op => op.data.isPrefixOf (c :: t)) with
    | some op => some op
    | none => specLeftmostOp t

def specLeftmostOpStr (s : String) : Option String :=
  specLeftmostOp s.data

/-- File system with a single included file `/t.txt` containing a `for`
loop (for C1). -/
def fsIncl : FS :=
  ⟨fun p => if p = "/t.txt" then some ["for i in 1..2", "say $i", "endfor"]
    else none⟩

/-- File system with a single script `/s.txt` that includes itself
(for C3). -/
def fsSelf : FS :=
  ⟨fun p => if p = "/s.txt" then some ["include /s.txt", "say hi"] else none⟩

/-- The empty file system. -/
def fsEmpty : FS := ⟨fun _ => none⟩

/-- A store binding `a ↦ "$b"` and `b ↦ "x"` (for C6). -/
def braceStore : Store :=
  fun n =>
    if n = "a" then some (.vStr "$b")
    else if n = "b" then some (.vStr "x")
    else none

/-! ## Theorems -/

/-- C1: the claim says no string in the expanded command stream has a
control keyword as its leading token, in particular not lines spliced from
an included file.  The code violates this: `_handle_include` calls
`load_script_file` without passing the interpreter (or the visited set), so
an included file's lines are spliced raw — here `/t.txt`'s `for` loop
arrives verbatim in the output stream, `for` leading token included. -/
theorem C1_include_splices_control_keywords :
    (expandBlock fsIncl none 51 ["include /t.txt"] initState).toOption.map
        (fun p => p.1) = some ["for i in 1..2", "say $i", "endfor"] ∧
    firstToken "for i in 1..2" = "for" ∧
    controlKeywords.contains "for" = true := by
  decide

/-- C3: the claim says an already-visited file contributes an empty
expansion accompanied by a diagnostic.  The code terminates on a
self-including script, but because `_handle_include` passes a fresh
`visited` set and no interpreter, the nested load re-reads `/s.txt` and
splices its raw lines (the `include` line itself included) — a *non-empty*
contribution — and prints nothing: the final log stream is empty, so in
particular no "Skipping already included file" diagnostic was issued. -/
theorem C3_self_include_not_skipped :
    (runScript fsSelf "/s.txt").toOption.map (fun p => (p.1, p.2.logs)) =
      some (["include /s.txt", "say hi", "say hi"], []) := by
  decide

/-- C5: the claim says every condition with a recognized operator evaluates
to a boolean, `'if 5 > abc'` included.  In the code the two sides are
converted independently (`5` to `float`, `abc` to `str`) and the comparison
itself sits outside the `try`/`except`, so Python raises an uncaught
`TypeError` — the claim's own example makes evaluation fail. -/
theorem C5_mixed_comparison_raises :
    pyContains "5 > abc" ">" = true ∧
    evalCondition Store.empty "5 > abc" = .error .typeError := by
  decide

/-- C6 counterexample: the claim's own example — with `a ↦ "$b"` and
`b ↦ "x"`, expanding `${a}` is claimed to give `$b`.  The code's second
`re.sub` pass re-scans the output of the first pass, so the substituted
`$b` is expanded again and the result is `x`. -/
theorem C6_brace_output_rescanned :
    expandVariables braceStore "${a}" = "x" ∧ ("x" : String) ≠ "$b" := by
  decide

/-- C7 counterexample: in `1<2 == 3` the claim says the leftmost operator
`<` splits the condition; the code iterates the priority list `== != >= <=
> <` over the whole string, so `==` wins although `<` occurs earlier. -/
theorem C7_priority_beats_position :
    specLeftmostOpStr "1<2 == 3" = some "<" ∧
    condOp "1<2 == 3" = some "==" ∧
    (some "==" : Option String) ≠ some "<" := by
  decide

/-! ### Helper lemmas: scope snapshot/restore -/

/-- Setting a key and then restoring its snapshot is the identity on the
store. -/
theorem store_set_restore (s : Store) (x : String) (v : Value) :
    (match s x with
     | some w => (Store.set s x v).set x w
     | none => (Store.set s x v).del x) = s := by
  cases hx : s x with
  | some w =>
    funext n
    simp only [Store.set]
    split
    · rename_i hn; rw [hn, hx]
    · rfl
  | none =>
    funext n
    simp only [Store.set, Store.del]
    split
    · rename_i hn; rw [hn, hx]
    · rfl

/-- The same, for an arbitrary store `s2` whose snapshot came from `s`:
restoring only touches `x`. -/
theorem store_restore_other (s2 : Store) (o : Option Value) (x n : String)
    (hn : n ≠ x) :
    (match o with
     | some w => Store.set s2 x w
     | none => Store.del s2 x) n = s2 n := by
  cases o <;> simp [Store.set, Store.del, hn]

/-- The restore step of a loop iteration lands the loop variable back on
its snapshot, whatever the body did to the store. -/
theorem store_restore_self (s2 : Store) (o : Option Value) (x : String) :
    (match o with
     | some w => Store.set s2 x w
     | none => Store.del s2 x) x = o := by
  cases o <;> simp [Store.set, Store.del]

/-! ### Helper lemmas: expanding a block of literal lines -/

/-- A block of literal lines expands to its variable-expanded lines, with
the state untouched, whatever the nested expander is. -/
theorem cursorAux_literal (fs : FS) (bd : Option String)
    (exp : List String → IState → Except PyErr (List String × IState)) :
    ∀ (fuel : Nat) (lines : List String) (idx : Nat) (st : IState),
      lines.length < fuel →
      (∀ l ∈ lines, isLiteralLine l = true) →
      cursorAux fs bd exp fuel lines idx st =
        .ok (lines.map (fun l => expandVariables st.vars (pyStrip l)), st) := by
  intro fuel
  induction fuel with
  | zero => intro lines idx st h; omega
  | succ f ih =>
    intro lines idx st h hlit
    cases lines with
    | nil => rfl
    | cons l t =>
      have hl := hlit l (List.mem_cons_self l t)
      simp only [isLiteralLine, Bool.and_eq_true, Bool.not_eq_true'] at hl
      obtain ⟨⟨⟨⟨⟨⟨⟨h1, h3⟩, h4⟩, h5⟩, h6⟩, h7⟩, h8⟩, h9⟩ := hl
      have ht : cursorAux fs bd exp f t (idx + 1) st =
          .ok (t.map (fun l => expandVariables st.vars (pyStrip l)), st) := by
        apply ih
        · simpa using Nat.lt_of_succ_lt_succ (by simpa using h)
        · intro l' hl'; exact hlit l' (List.mem_cons_of_mem _ hl')
      simp [cursorAux, h1, h3, h4, h5, h6, h7, h8, h9, ht]

theorem cursor_literal (fs : FS) (bd : Option String)
    (exp : List String → IState → Except PyErr (List String × IState))
    (lines : List String) (idx : Nat) (st : IState)
    (hlit : ∀ l ∈ lines, isLiteralLine l = true) :
    cursor fs bd exp lines idx st =
      .ok (lines.map (fun l => expandVariables st.vars (pyStrip l)), st) :=
  cursorAux_literal fs bd exp (lines.length + 1) lines idx st
    (Nat.lt_succ_self _) hlit

/-! ### Helper lemmas: dispatch conditions of the cursor -/

/-- A line whose lowercasing starts with `while␣` passes the blank/comment
check and misses the `include`/`set`/`for` dispatches. -/
theorem dispatch_while (s : String)
    (h : pyStartsWith (pyLower s) "while " = true) :
    (s.data.isEmpty || pyStartsWith s "#") = false ∧
    pyStartsWith (pyLower s) "include " = false ∧
    pyStartsWith (pyLower s) "set " = false ∧
    pyStartsWith (pyLower s) "for " = false := by
  obtain ⟨u, hu⟩ := List.isPrefixOf_iff_prefix.mp h
  have hlow : (pyLower s).data = 'w' :: 'h' :: 'i' :: 'l' :: 'e' :: ' ' :: u := by
    rw [← hu]; rfl
  have hmap : s.data.map Char.toLower = 'w' :: 'h' :: 'i' :: 'l' :: 'e' :: ' ' :: u := by
    simpa [pyLower] using hlow
  cases hs : s.data with
  | nil => rw [hs] at hmap; simp at hmap
  | cons c cs =>
    rw [hs] at hmap
    simp only [List.map_cons, List.cons.injEq] at hmap
    have hc : c ≠ '#' := by
      intro he; rw [he] at hmap; exact absurd hmap.1 (by decide)
    refine ⟨?_, ?_, ?_, ?_⟩
    · simp only [pyStartsWith, hs, List.isEmpty_cons, Bool.false_or]
      have : ("#".data.isPrefixOf (c :: cs)) = (('#' == c) && ([].isPrefixOf cs)) := rfl
      rw [this]
      simp [hc.symm]
    · simp only [pyStartsWith, hlow]; rfl
    · simp only [pyStartsWith, hlow]; rfl
    · simp only [pyStartsWith, hlow]; rfl

/-- A line whose lowercasing starts with `for␣` passes the blank/comment
check and misses the `include`/`set` dispatches. -/
theorem dispatch_for (s : String)
    (h : pyStartsWith (pyLower s) "for " = true) :
    (s.data.isEmpty || pyStartsWith s "#") = false ∧
    pyStartsWith (pyLower s) "include " = false ∧
    pyStartsWith (pyLower s) "set " = false := by
  obtain ⟨u, hu⟩ := List.isPrefixOf_iff_prefix.mp h
  have hlow : (pyLower s).data = 'f' :: 'o' :: 'r' :: ' ' :: u := by
    rw [← hu]; rfl
  have hmap : s.data.map Char.toLower = 'f' :: 'o' :: 'r' :: ' ' :: u := by
    simpa [pyLower] using hlow
  cases hs : s.data with
  | nil => rw [hs] at hmap; simp at hmap
  | cons c cs =>
    rw [hs] at hmap
    simp only [List.map_cons, List.cons.injEq] at hmap
    have hc : c ≠ '#' := by
      intro he; rw [he] at hmap; exact absurd hmap.1 (by decide)
    refine ⟨?_, ?_, ?_⟩
    · simp only [pyStartsWith, hs, List.isEmpty_cons, Bool.false_or]
      have : ("#".data.isPrefixOf (c :: cs)) = (('#' == c) && ([].isPrefixOf cs)) := rfl
      rw [this]
      simp [hc.symm]
    · simp only [pyStartsWith, hlow]; rfl
    · simp only [pyStartsWith, hlow]; rfl

/-! ### Helper lemmas: block boundaries around literal bodies -/

/-- A literal line is neither an opener nor a closer for the
boundary scan. -/
theorem literal_not_boundary (l : String) (h : isLiteralLine l = true) :
    pyStartsWith (pyLower (pyStrip l)) "for " = false ∧
    pyStartsWith (pyLower (pyStrip l)) "while " = false ∧
    pyStartsWith (pyLower (pyStrip l)) "if " = false ∧
    (pyLower (pyStrip l) = "endfor") = False ∧
    (pyLower (pyStrip l) = "endwhile") = False ∧
    (pyLower (pyStrip l) = "endif") = False := by
  simp only [isLiteralLine, Bool.and_eq_true, Bool.not_eq_true'] at h
  obtain ⟨⟨⟨⟨⟨⟨⟨h1, h3⟩, h4⟩, h5⟩, h6⟩, h7⟩, h8⟩, h9⟩ := h
  simp only [Bool.or_eq_false_iff] at h9
  refine ⟨h5, h6, h7, ?_, ?_, ?_⟩ <;> simp_all

/-- `_find_block_end` on a literal block followed by its exact closer
keyword: the block is returned and the closer's position reported. -/
theorem findBlockEnd_literal (kw : String) (body rest : List String)
    (hkw : kw = "endfor" ∨ kw = "endwhile" ∨ kw = "endif")
    (hlit : ∀ l ∈ body, isLiteralLine l = true) :
    findBlockEnd kw (body ++ kw :: rest) 0 = (body, some body.length) := by
  induction body with
  | nil =>
    rcases hkw with h | h | h <;> subst h <;>
      simp only [List.nil_append, findBlockEnd] <;>
      rw [if_neg (by decide), if_pos (by decide), if_pos (by decide)] <;> rfl
  | cons l t ih =>
    have hl := literal_not_boundary l (hlit l (List.mem_cons_self l t))
    have ht := ih (fun l' hl' => hlit l' (List.mem_cons_of_mem _ hl'))
    simp only [List.cons_append, findBlockEnd, hl.1, hl.2.1, hl.2.2.1,
      hl.2.2.2.1, hl.2.2.2.2.1, hl.2.2.2.2.2, Bool.or_self, Bool.false_or,
      if_false, ht, List.length_cons]
    simp [ht]

/-! ### Helper lemmas: the loop engines on literal bodies -/

/-- Rebinding a key and then restoring its recorded value is the identity. -/
theorem set_set_cancel (s : Store) (x : String) (v w : Value)
    (h : s x = some w) : Store.set (Store.set s x v) x w = s := by
  funext n
  by_cases hn : n = x
  · subst hn; simp [Store.set, h]
  · simp [Store.set, hn]

/-- Binding a previously unbound key and then deleting it is the identity. -/
theorem set_del_cancel (s : Store) (x : String) (v : Value)
    (h : s x = none) : Store.del (Store.set s x v) x = s := by
  funext n
  by_cases hn : n = x
  · subst hn; simp [Store.del, h]
  · simp [Store.del, Store.set, hn]

/-- `_handle_for`'s iteration loop over a state-preserving body: the first
`maxIterations - iter` values are expanded under the successive bindings of
the loop variable, the rest are cut off with the ceiling diagnostic, and
the state is otherwise returned unchanged. -/
theorem forIter_literal
    (exp : List String → IState → Except PyErr (List String × IState))
    (x : String) (block : List String)
    (hexp : ∀ st' : IState,
      exp block st' =
        .ok (block.map (fun l => expandVariables st'.vars (pyStrip l)), st')) :
    ∀ (vals : List Value) (st : IState) (iter : Nat),
      iter ≤ maxIterations →
      forIter exp x block vals st iter =
        .ok ((vals.take (maxIterations - iter)).flatMap
              (fun v => block.map
                (fun l => expandVariables (Store.set st.vars x v) (pyStrip l))),
          if maxIterations - iter < vals.length then st.log forLoopWarning
          else st) := by
  intro vals
  induction vals with
  | nil => intro st iter _; simp [forIter]
  | cons v vs ih =>
    intro st iter hiter
    by_cases hceil : iter ≥ maxIterations
    · have h0 : maxIterations - iter = 0 := by omega
      simp [forIter, hceil, h0]
    · have h1 : maxIterations - iter = (maxIterations - (iter + 1)) + 1 := by omega
      have hrt := ih st (iter + 1) (by omega)
      have hcond :
          (if maxIterations - (iter + 1) < vs.length then st.log forLoopWarning
            else st) =
          (if maxIterations - iter < vs.length + 1 then st.log forLoopWarning
            else st) := by
        by_cases hlen : maxIterations - (iter + 1) < vs.length
        · rw [if_pos hlen, if_pos (by omega)]
        · rw [if_neg hlen, if_neg (by omega)]
      cases hx : st.vars x with
      | some w =>
        simp only [forIter, hceil, if_false, hexp, hx,
          set_set_cancel st.vars x v w hx, hrt, hcond, h1,
          List.take_succ_cons, List.flatMap_cons, List.length_cons]
      | none =>
        simp only [forIter, hceil, if_false, hexp, hx,
          set_del_cancel st.vars x v hx, hrt, hcond, h1,
          List.take_succ_cons, List.flatMap_cons, List.length_cons]

/-- `_handle_while`'s iteration loop over a state-preserving body and a
condition that keeps evaluating to true: the body is expanded once per unit
of remaining iteration budget, then the loop stops with the ceiling
diagnostic. -/
theorem whileIter_literal
    (exp : List String → IState → Except PyErr (List String × IState))
    (cond : String) (block : List String)
    (hexp : ∀ st' : IState,
      exp block st' =
        .ok (block.map (fun l => expandVariables st'.vars (pyStrip l)), st')) :
    ∀ (r : Nat) (st : IState),
      evalCondition st.vars cond = .ok true →
      whileIter exp cond block r st =
        .ok ((List.replicate r
              (block.map (fun l => expandVariables st.vars (pyStrip l)))).flatten,
          st.log whileLoopWarning) := by
  intro r
  induction r with
  | zero => intro st hc; simp [whileIter, hc]
  | succ k ih =>
    intro st hc
    simp only [whileIter, hc, hexp, ih st hc, List.replicate_succ,
      List.flatten_cons]

/-! ### Helper lemmas: the cursor's fuel is irrelevant above the line
count -/

/-- Any two sufficient fuels give the cursor the same result (each step
consumes at least one line and one unit of fuel). -/
theorem cursorAux_fuel (fs : FS) (bd : Option String)
    (exp : List String → IState → Except PyErr (List String × IState)) :
    ∀ (f1 f2 : Nat) (lines : List String) (idx : Nat) (st : IState),
      lines.length < f1 → lines.length < f2 →
      cursorAux fs bd exp f1 lines idx st = cursorAux fs bd exp f2 lines idx st := by
  intro f1
  induction f1 with
  | zero => intro f2 lines idx st h1 _; exact absurd h1 (by omega)
  | succ fa ih =>
    intro f2 lines idx st h1 h2
    match f2, lines with
    | 0, lines => exact absurd h2 (by omega)
    | fb + 1, [] => rfl
    | fb + 1, l :: rest =>
      have hr : rest.length < fa := by
        simp only [List.length_cons] at h1; omega
      have hrb : rest.length < fb := by
        simp only [List.length_cons] at h2; omega
      have hda : ∀ d, (List.drop d rest).length < fa := by
        intro d; simp only [List.length_drop]; omega
      have hdb : ∀ d, (List.drop d rest).length < fb := by
        intro d; simp only [List.length_drop]; omega
      simp only [cursorAux]
      split
      · exact ih fb rest (idx + 1) st hr hrb
      · split
        · rw [ih fb rest (idx + 1) _ hr hrb]
        · split
          · exact ih fb rest (idx + 1) _ hr hrb
          · split
            · cases handleFor exp (pyStrip l) rest st with
              | error e => rfl
              | ok p =>
                obtain ⟨out, st1, dcount⟩ := p
                dsimp only
                rw [ih fb (rest.drop dcount) (idx + 1 + dcount) st1 (hda dcount)
                  (hdb dcount)]
            · split
              · cases handleWhile exp (pyStrip l) rest st with
                | error e => rfl
                | ok p =>
                  obtain ⟨out, st1, dcount⟩ := p
                  dsimp only
                  rw [ih fb (rest.drop dcount) (idx + 1 + dcount) st1 (hda dcount)
                    (hdb dcount)]
              · split
                · cases handleIf exp (pyStrip l) rest idx st with
                  | error e => rfl
                  | ok p =>
                    obtain ⟨out, st1, dcount⟩ := p
                    dsimp only
                    rw [ih fb (rest.drop dcount) (idx + 1 + dcount) st1 (hda dcount)
                      (hdb dcount)]
                · split
                  · cases handleCall exp (pyStrip l) st with
                    | error e => rfl
                    | ok p =>
                      obtain ⟨out, st1⟩ := p
                      dsimp only
                      rw [ih fb rest (idx + 1) st1 hr hrb]
                  · split
                    · exact ih fb rest (idx + 1) _ hr hrb
                    · rw [ih fb rest (idx + 1) st hr hrb]

/-- C8: a `while` whose condition keeps evaluating true over a literal body
(which cannot change the store, so one true evaluation settles all rounds)
terminates after expanding the body exactly `max_iterations = 1000` times,
logs the ceiling diagnostic, and hands control to the cursor on the lines
after the `endwhile` — the surrounding script continues. -/
theorem C8_while_ceiling (fs : FS) (bd : Option String) (g : Nat)
    (wline cond : String) (body rest : List String) (st : IState)
    (hdisp : pyStartsWith (pyLower (pyStrip wline)) "while " = true)
    (hparse : parseWhile (pyStrip wline) = some cond)
    (hlit : ∀ l ∈ body, isLiteralLine l = true)
    (hcond : evalCondition st.vars cond = .ok true) :
    expandBlock fs bd (g + 2) (wline :: (body ++ "endwhile" :: rest)) st =
      (cursor fs bd (expandBlock fs bd (g + 1)) rest (body.length + 2)
          (st.log whileLoopWarning)).map
        (fun p =>
          ((List.replicate maxIterations
            (body.map (fun l => expandVariables st.vars (pyStrip l)))).flatten ++
              p.1,
          p.2)) := by
  obtain ⟨hc1, hc2, hc3, hc4⟩ := dispatch_while (pyStrip wline) hdisp
  have hexp : ∀ st' : IState,
      expandBlock fs bd (g + 1) body st' =
        .ok (body.map (fun l => expandVariables st'.vars (pyStrip l)), st') := by
    intro st'
    show cursor fs bd (expandBlock fs bd g) body 0 st' = _
    exact cursor_literal fs bd _ body 0 st' hlit
  have hfind := findBlockEnd_literal "endwhile" body rest (Or.inr (Or.inl rfl)) hlit
  have hwhile := whileIter_literal (expandBlock fs bd (g + 1)) cond body hexp
    maxIterations st hcond
  have hhandle : handleWhile (expandBlock fs bd (g + 1)) (pyStrip wline)
      (body ++ "endwhile" :: rest) st =
      .ok ((List.replicate maxIterations
        (body.map (fun l => expandVariables st.vars (pyStrip l)))).flatten,
        st.log whileLoopWarning, body.length + 1) := by
    simp only [handleWhile, hparse, hfind, hwhile]
  have hdrop : (body ++ "endwhile" :: rest).drop (body.length + 1) = rest := by
    simp [List.drop_append]
  have hlen : (wline :: (body ++ "endwhile" :: rest)).length + 1 =
      ((body ++ "endwhile" :: rest).length + 1) + 1 := by
    simp
  show cursorAux fs bd (expandBlock fs bd (g + 1))
      ((wline :: (body ++ "endwhile" :: rest)).length + 1)
      (wline :: (body ++ "endwhile" :: rest)) 0 st = _
  rw [hlen]
  simp only [cursorAux, hc1, hc2, hc3, hc4, hdisp, Bool.false_eq_true,
    if_false, if_true, hhandle, hdrop]
  have hinv := cursorAux_fuel fs bd (expandBlock fs bd (g + 1))
    ((body ++ "endwhile" :: rest).length + 1) (rest.length + 1) rest
    (0 + 1 + (body.length + 1)) (st.log whileLoopWarning)
    (by simp; omega) (by omega)
  rw [hinv]
  have hidx : 0 + 1 + (body.length + 1) = body.length + 2 := by omega
  rw [hidx]
  cases hres : cursor fs bd (expandBlock fs bd (g + 1)) rest (body.length + 2)
      (st.log whileLoopWarning) with
  | error e => simp [cursor] at hres; simp [hres, Except.map]
  | ok p => simp [cursor] at hres; simp [hres, Except.map]

/-- A string with no `$` is untouched by the first substitution pass. -/
theorem subBraceAux_no_dollar (vars : Store) :
    ∀ l : List Char, '$' ∉ l → subBraceAux vars .scan l = l := by
  intro l
  induction l with
  | nil => intro _; rfl
  | cons c t ih =>
    intro h
    have hc : c ≠ '$' := fun he => h (he ▸ List.mem_cons_self c t)
    have ht : '$' ∉ t := fun he => h (List.mem_cons_of_mem c he)
    simp [subBraceAux, hc, ih ht]

/-- A string with no `$` is untouched by the second substitution pass. -/
theorem subDollarAux_no_dollar (vars : Store) :
    ∀ l : List Char, '$' ∉ l → subDollarAux vars none l = l := by
  intro l
  induction l with
  | nil => intro _; rfl
  | cons c t ih =>
    intro h
    have hc : c ≠ '$' := fun he => h (he ▸ List.mem_cons_self c t)
    have ht : '$' ∉ t := fun he => h (List.mem_cons_of_mem c he)
    simp [subDollarAux, hc, ih ht]

/-- Variable expansion leaves a `$`-free line unchanged, whatever the
store. -/
theorem expandVariables_no_dollar (vars : Store) (s : String)
    (h : '$' ∉ s.data) : expandVariables vars s = s := by
  simp only [expandVariables, subDollar, subBrace, subBraceAux_no_dollar vars _ h,
    subDollarAux_no_dollar vars _ h]

/-- A `flatMap` whose pieces all have length `k` has length
`l.length * k`. -/
theorem flatMap_length_const {α β : Type} (f : α → List β) (k : Nat) :
    ∀ l : List α, (∀ a ∈ l, (f a).length = k) →
      (l.flatMap f).length = l.length * k := by
  intro l
  induction l with
  | nil => intro _; simp
  | cons a t ih =>
    intro h
    simp only [List.flatMap_cons, List.length_append, List.length_cons,
      h a (List.mem_cons_self a t), ih (fun b hb => h b (List.mem_cons_of_mem _ hb))]
    ring

/-- The general shape of a `for` over an inclusive integer range with a
literal body: the first `maxIterations` range values are expanded under the
successive bindings (with the ceiling diagnostic when the range is longer),
and the cursor continues after the `endfor`. -/
theorem expandBlock_for_literal (fs : FS) (bd : Option String) (g : Nat)
    (fline x rawVals : String) (A B S : Nat) (body rest : List String)
    (st : IState)
    (hdisp : pyStartsWith (pyLower (pyStrip fline)) "for " = true)
    (hparse : parseFor (pyStrip fline) = some (x, rawVals))
    (hrange : parseRange (pyStrip rawVals) = some (A, B, S))
    (hS : 1 ≤ S)
    (hlit : ∀ l ∈ body, isLiteralLine l = true) :
    expandBlock fs bd (g + 2) (fline :: (body ++ "endfor" :: rest)) st =
      (cursor fs bd (expandBlock fs bd (g + 1)) rest (body.length + 2)
          (if maxIterations < (pyRange A (B + 1) S).length then
            st.log forLoopWarning else st)).map
        (fun p =>
          ((((pyRange A (B + 1) S).map Value.vInt).take maxIterations).flatMap
            (fun v => body.map
              (fun l => expandVariables (Store.set st.vars x v) (pyStrip l))) ++
              p.1,
          p.2)) := by
  obtain ⟨hc1, hc2, hc3⟩ := dispatch_for (pyStrip fline) hdisp
  have hexp : ∀ st' : IState,
      expandBlock fs bd (g + 1) body st' =
        .ok (body.map (fun l => expandVariables st'.vars (pyStrip l)), st') := by
    intro st'
    show cursor fs bd (expandBlock fs bd g) body 0 st' = _
    exact cursor_literal fs bd _ body 0 st' hlit
  have hfind := findBlockEnd_literal "endfor" body rest (Or.inl rfl) hlit
  have hfor := forIter_literal (expandBlock fs bd (g + 1)) x body hexp
    ((pyRange A (B + 1) S).map Value.vInt) st 0 (by omega)
  have hS0 : ¬(S = 0) := by omega
  have hlenmap : ((pyRange A (B + 1) S).map Value.vInt).length =
      (pyRange A (B + 1) S).length := List.length_map _ _
  have hhandle : handleFor (expandBlock fs bd (g + 1)) (pyStrip fline)
      (body ++ "endfor" :: rest) st =
      .ok ((((pyRange A (B + 1) S).map Value.vInt).take maxIterations).flatMap
            (fun v => body.map
              (fun l => expandVariables (Store.set st.vars x v) (pyStrip l))),
        (if maxIterations < (pyRange A (B + 1) S).length then
          st.log forLoopWarning else st),
        body.length + 1) := by
    simp only [handleFor, hparse, hrange, hS0, if_false, hfind, hfor,
      Nat.sub_zero, hlenmap]
  have hdrop : (body ++ "endfor" :: rest).drop (body.length + 1) = rest := by
    simp [List.drop_append]
  have hlen : (fline :: (body ++ "endfor" :: rest)).length + 1 =
      ((body ++ "endfor" :: rest).length + 1) + 1 := by
    simp
  show cursorAux fs bd (expandBlock fs bd (g + 1))
      ((fline :: (body ++ "endfor" :: rest)).length + 1)
      (fline :: (body ++ "endfor" :: rest)) 0 st = _
  rw [hlen]
  simp only [cursorAux, hc1, hc2, hc3, hdisp, Bool.false_eq_true,
    if_false, if_true, hhandle, hdrop]
  have hinv := cursorAux_fuel fs bd (expandBlock fs bd (g + 1))
    ((body ++ "endfor" :: rest).length + 1) (rest.length + 1) rest
    (0 + 1 + (body.length + 1))
    (if maxIterations < (pyRange A (B + 1) S).length then
      st.log forLoopWarning else st)
    (by simp; omega) (by omega)
  rw [hinv]
  have hidx : 0 + 1 + (body.length + 1) = body.length + 2 := by omega
  rw [hidx]
  cases hres : cursor fs bd (expandBlock fs bd (g + 1)) rest (body.length + 2)
      (if maxIterations < (pyRange A (B + 1) S).length then
        st.log forLoopWarning else st) with
  | error e => simp [cursor] at hres; simp [hres, Except.map]
  | ok p => simp [cursor] at hres; simp [hres, Except.map]

/-- The number of values of `range(A, B+1, S)`. -/
theorem pyRange_length (A B S : Nat) (hS : 1 ≤ S) (hAB : A ≤ B) :
    (pyRange A (B + 1) S).length = (B - A + 1 + (S - 1)) / S := by
  unfold pyRange
  rw [List.length_map, List.length_range']
  congr 1
  omega

/-- The `i`-th value of `range(A, B+1, S)` is `A + S*i`: the enumeration is
ascending from `A` in steps of `S`. -/
theorem pyRange_get (A B S : Nat) (i : Nat)
    (hi : i < (pyRange A (B + 1) S).length) :
    (pyRange A (B + 1) S).get ⟨i, hi⟩ = Int.ofNat (A + S * i) := by
  rw [List.get_eq_getElem]
  unfold pyRange
  rw [List.getElem_map]
  congr 1
  exact List.getElem_range' _ _

/-- C2 (amended): a range `for` with `S ≥ 1`, `A ≤ B` and a literal body of
`k` lines expands, *provided the range has at most `max_iterations = 1000`
values*, to exactly `k * ceil((B-A+1)/S)` output lines — the body once per
iteration value, with the loop variable bound to `A, A+S, A+2S, …` in
ascending order — after which the cursor continues past the `endfor` with
the state unchanged. -/
theorem C2_range_for_count (fs : FS) (bd : Option String) (g : Nat)
    (fline x rawVals : String) (A B S : Nat) (body rest : List String)
    (st : IState)
    (hdisp : pyStartsWith (pyLower (pyStrip fline)) "for " = true)
    (hparse : parseFor (pyStrip fline) = some (x, rawVals))
    (hrange : parseRange (pyStrip rawVals) = some (A, B, S))
    (hS : 1 ≤ S) (hAB : A ≤ B)
    (hcount : (B - A + 1 + (S - 1)) / S ≤ maxIterations)
    (hlit : ∀ l ∈ body, isLiteralLine l = true) :
    expandBlock fs bd (g + 2) (fline :: (body ++ "endfor" :: rest)) st =
      (cursor fs bd (expandBlock fs bd (g + 1)) rest (body.length + 2) st).map
        (fun p =>
          (((pyRange A (B + 1) S).map Value.vInt).flatMap
            (fun v => body.map
              (fun l => expandVariables (Store.set st.vars x v) (pyStrip l))) ++
              p.1,
          p.2)) ∧
    (((pyRange A (B + 1) S).map Value.vInt).flatMap
      (fun v => body.map
        (fun l => expandVariables (Store.set st.vars x v) (pyStrip l)))).length =
      body.length * ((B - A + 1 + (S - 1)) / S) ∧
    ∀ i (hi : i < (pyRange A (B + 1) S).length),
      (pyRange A (B + 1) S).get ⟨i, hi⟩ = Int.ofNat (A + S * i) := by
  have hcnt := pyRange_length A B S hS hAB
  have htake : (((pyRange A (B + 1) S).map Value.vInt).take maxIterations) =
      ((pyRange A (B + 1) S).map Value.vInt) := by
    apply List.take_of_length_le
    rw [List.length_map, hcnt]
    exact hcount
  have hif : (if maxIterations < (pyRange A (B + 1) S).length then
      st.log forLoopWarning else st) = st := by
    rw [if_neg]
    rw [hcnt]
    omega
  have h := expandBlock_for_literal fs bd g fline x rawVals A B S body rest st
    hdisp hparse hrange hS hlit
  rw [htake, hif] at h
  refine ⟨h, ?_, pyRange_get A B S⟩
  rw [flatMap_length_const _ body.length _ (fun a _ => List.length_map _ _),
    List.length_map, hcnt, Nat.mul_comm]

/-- C2 counterexample: `for x in 1..1001` around one literal line — the
claim's unconditional count formula says `1 * ceil(1001/1) = 1001` output
lines, but the iteration ceiling truncates the loop at 1000. -/
theorem C2_ceiling_counterexample :
    (expandBlock fsEmpty none 51 ["for x in 1..1001", "say hi", "endfor"]
        initState).toOption.map (fun p => p.1.length) = some 1000 ∧
    (1000 : Nat) ≠ 1 * ((1001 - 1 + 1 + (1 - 1)) / 1) := by
  constructor
  · have h := expandBlock_for_literal fsEmpty none 49 "for x in 1..1001" "x"
      "1..1001" 1 1001 1 ["say hi"] [] initState (by decide) (by decide)
      (by decide) (by decide) (by decide)
    have h51 : (49 : Nat) + 2 = 51 := by norm_num
    have h50 : (49 : Nat) + 1 = 50 := by norm_num
    rw [h51, h50] at h
    simp only [List.cons_append, List.nil_append] at h
    rw [h]
    have hlen : ((pyRange 1 (1001 + 1) 1).map Value.vInt).length = 1001 := by
      simp [pyRange, List.length_range']
    have hout : ((((pyRange 1 (1001 + 1) 1).map Value.vInt).take
        maxIterations).flatMap
        (fun v => (["say hi"] : List String).map
          (fun l => expandVariables (Store.set initState.vars "x" v)
            (pyStrip l)))).length = 1000 := by
      rw [flatMap_length_const _ 1 _ (fun a _ => by simp), List.length_take, hlen]
      rfl
    have hcur : cursor fsEmpty none (expandBlock fsEmpty none 50)
        ([] : List String) ((["say hi"] : List String).length + 2)
        (if maxIterations < (pyRange 1 (1001 + 1) 1).length
          then initState.log forLoopWarning else initState) =
        .ok ([],
          if maxIterations < (pyRange 1 (1001 + 1) 1).length
          then initState.log forLoopWarning else initState) := rfl
    rw [hcur]
    simp only [Except.map, Except.toOption, Option.map, List.append_nil]
    rw [hout]
  · decide

theorem replicate_flatten_length {α : Type} (a : List α) :
    ∀ n : Nat, (List.replicate n a).flatten.length = n * a.length := by
  intro n
  induction n with
  | zero => simp
  | succ k ih => simp [List.replicate_succ, ih, Nat.succ_mul, Nat.add_comm]

/-- Witness for C2: `for i in 1..3` around `say Round $i` expands to
exactly the three lines of the spec's example. -/
theorem C2_range_for_count_witness :
    (expandBlock fsEmpty none 51 ["for i in 1..3", "say Round $i", "endfor"]
        initState).toOption.map (fun p => p.1) =
      some ["say Round 1", "say Round 2", "say Round 3"] := by
  have h := C2_range_for_count fsEmpty none 49 "for i in 1..3" "i" "1..3" 1 3 1
    ["say Round $i"] [] initState (by decide) (by decide) (by decide)
    (by decide) (by decide) (by decide) (by decide)
  obtain ⟨h1, _, _⟩ := h
  simp only [List.cons_append, List.nil_append] at h1
  rw [show (49 : Nat) + 2 = 51 by norm_num,
    show (49 : Nat) + 1 = 50 by norm_num] at h1
  rw [h1]
  decide

/-- Witness for C8: a constant-true `while` over one literal line expands
that line exactly 1000 times, logs the ceiling warning, and the following
literal line is still processed. -/
theorem C8_while_ceiling_witness :
    (expandBlock fsEmpty none 2
        ["while 1 > 0", "say hi", "endwhile", "say done"]
        initState).toOption.map (fun p => (p.1.length, p.2.logs)) =
      some (1001, [whileLoopWarning]) := by
  have h := C8_while_ceiling fsEmpty none 0 "while 1 > 0" "1 > 0" ["say hi"]
    ["say done"] initState (by decide) (by decide) (by decide) (by decide)
  simp only [List.cons_append, List.nil_append, Nat.zero_add] at h
  rw [h]
  rw [cursor_literal fsEmpty none (expandBlock fsEmpty none 1) ["say done"]
    (List.length (α := String) ["say hi"] + 2) (initState.log whileLoopWarning)
    (by decide)]
  simp only [Except.map, Except.toOption, Option.map, List.length_append,
    replicate_flatten_length, List.length_map, List.length_cons,
    List.length_nil, Option.some.injEq, Prod.mk.injEq]
  constructor
  · rfl
  · rfl

/-! ### Helper lemmas: snapshot/restore of the loop variable and the call
arguments -/

/-- After `_handle_for`'s iteration loop returns normally, the loop
variable holds its pre-loop value (or absence), whatever the body
expansions did to the store. -/
theorem forIter_restore
    (exp : List String → IState → Except PyErr (List String × IState))
    (x : String) (block : List String) :
    ∀ (vals : List Value) (st : IState) (iter : Nat)
      (r : List String × IState),
      forIter exp x block vals st iter = .ok r → r.2.vars x = st.vars x := by
  intro vals
  induction vals with
  | nil =>
    intro st iter r h
    simp only [forIter] at h
    cases h
    rfl
  | cons v vs ih =>
    intro st iter r h
    simp only [forIter] at h
    split at h
    · cases h; rfl
    · split at h
      · exact absurd h (by simp)
      · rename_i out st2 heq
        split at h
        · exact absurd h (by simp)
        · rename_i restOut st4 hrec
          cases h
          have h4 := ih _ _ _ hrec
          simp only at h4
          rw [h4]
          exact store_restore_self st2.vars (st.vars x) x

/-- Restoring entries whose keys all differ from `k` leaves `k`
untouched. -/
theorem restoreArgs_preserve (k : String) :
    ∀ (olds : List (String × Option Value)) (vars : Store),
      (∀ p ∈ olds, p.1 ≠ k) → restoreArgs vars olds k = vars k := by
  intro olds
  induction olds with
  | nil => intro vars _; rfl
  | cons p t ih =>
    intro vars hne
    have hp := hne p (List.mem_cons_self p t)
    obtain ⟨k0, o0⟩ := p
    cases o0 with
    | some w =>
      simp only [restoreArgs]
      rw [ih _ (fun q hq => hne q (List.mem_cons_of_mem _ hq))]
      simp only at hp
      simp [Store.set, Ne.symm hp]
    | none =>
      simp only [restoreArgs]
      rw [ih _ (fun q hq => hne q (List.mem_cons_of_mem _ hq))]
      simp only at hp
      split
      · simp [Store.del, Ne.symm hp]
      · rfl

/-- If every snapshot entry records the pre-call value of its own key, then
after the restore pass every key that has an entry is back at its pre-call
value — regardless of what the body did to the store in between. -/
theorem restoreArgs_lookup (st0 : Store) (k : String) :
    ∀ (olds : List (String × Option Value)) (vars : Store),
      (∀ p ∈ olds, p.2 = st0 p.1) → (∃ p ∈ olds, p.1 = k) →
      restoreArgs vars olds k = st0 k := by
  intro olds
  induction olds with
  | nil => intro vars _ hex; exact absurd hex (by simp)
  | cons p t ih =>
    intro vars hval hex
    obtain ⟨k0, o0⟩ := p
    have hv0 : o0 = st0 k0 := hval _ (List.mem_cons_self _ t)
    by_cases htail : ∃ q ∈ t, q.1 = k
    · cases o0 with
      | some w =>
        simp only [restoreArgs]
        exact ih _ (fun q hq => hval q (List.mem_cons_of_mem _ hq)) htail
      | none =>
        simp only [restoreArgs]
        exact ih _ (fun q hq => hval q (List.mem_cons_of_mem _ hq)) htail
    · have hk0 : k0 = k := by
        obtain ⟨q, hq, hqk⟩ := hex
        rcases List.mem_cons.mp hq with hq1 | hq2
        · rw [hq1] at hqk; exact hqk
        · exact absurd ⟨q, hq2, hqk⟩ htail
      subst hk0
      have hpres : ∀ vars' : Store, restoreArgs vars' t k0 = vars' k0 := by
        intro vars'
        apply restoreArgs_preserve
        intro q hq hqk
        exact htail ⟨q, hq, hqk⟩
      simp only at hv0
      cases ho : o0 with
      | some w =>
        rw [ho] at hv0
        simp only [restoreArgs, hpres]
        simp [Store.set, hv0]
      | none =>
        rw [ho] at hv0
        simp only [restoreArgs, hpres]
        split
        · simp [Store.del, ← hv0]
        · rename_i hnone
          have : vars k0 = none := by
            cases hv : vars k0 with
            | none => rfl
            | some w => rw [hv] at hnone; simp at hnone
          rw [this, hv0]

/-- After `_handle_for` returns normally, the parsed loop variable is back
at its pre-call binding (or absence). -/
theorem handleFor_restore
    (exp : List String → IState → Except PyErr (List String × IState))
    (line : String) (rest : List String) (st : IState) (x vs : String)
    (hparse : parseFor line = some (x, vs)) :
    (okState3 (handleFor exp line rest st) st).vars x = st.vars x := by
  have hst1 : (match (findBlockEnd "endfor" rest 0).2 with
      | none => st.log "Warning: No matching endfor found"
      | some _ => st).vars = st.vars := by
    cases (findBlockEnd "endfor" rest 0).2 <;> rfl
  unfold handleFor
  rw [hparse]
  dsimp only
  split
  · rfl
  · split
    · rfl
    · rename_i out st2 hfi
      have h := forIter_restore exp x _ _ _ _ _ hfi
      simp only [okState3]
      dsimp only at h
      rw [h, hst1]

/-- C4: after `_handle_for` returns, the variable store maps the induction
variable to its pre-loop value or leaves it unbound — whatever the body did
(including `set`s of that same name) and whatever the nested expander is;
while a `set` in the body targeting a different name persists after the
loop: concretely, `for x in 1..2` around `set y 5` ends with `y ↦ 5` still
bound and `x` unbound. -/
theorem C4_for_variable_frame :
    (∀ (exp : List String → IState → Except PyErr (List String × IState))
        (line : String) (rest : List String) (st : IState) (x vs : String),
        parseFor line = some (x, vs) →
        (okState3 (handleFor exp line rest st) st).vars x = st.vars x) ∧
    (preprocess fsEmpty none ["for x in 1..2", "set y 5", "endfor"]
        initState).toOption.map
      (fun p => (p.2.vars "y", p.2.vars "x")) =
      some (some (.vInt 5), none) := by
  constructor
  · intro exp line rest st x vs hparse
    exact handleFor_restore exp line rest st x vs hparse
  · decide

/-- Witness for C4's universally quantified part, at a concrete loop. -/
theorem C4_for_variable_frame_witness :
    (okState3 (handleFor (fun _ s => .ok ([], s)) "for i in 1..2" ["endfor"]
        initState) initState).vars "i" = initState.vars "i" :=
  C4_for_variable_frame.1 (fun _ s => .ok ([], s)) "for i in 1..2" ["endfor"]
    initState "i" "1..2" (by decide)

/-- After `_handle_call` returns normally, the positional variables
`$1 … $k` (`k` = the argument count of this call) are back at their
pre-call bindings, whatever the body did. -/
theorem handleCall_restore
    (exp : List String → IState → Except PyErr (List String × IState))
    (line : String) (st : IState) (name argsStr : String) (i : Nat)
    (hparse : parseCall line = some (name, argsStr))
    (h1 : 1 ≤ i) (h2 : i ≤ (splitValues argsStr).length) :
    (okState (handleCall exp line st) st).vars (toString i) =
      st.vars (toString i) := by
  unfold handleCall
  rw [hparse]
  dsimp only
  cases hsub : st.subs name with
  | none => rfl
  | some body =>
    dsimp only
    cases hexp : exp body
        { st with vars := bindArgs st.vars (splitValues argsStr) 1 } with
    | error e => rfl
    | ok p =>
      obtain ⟨out, st2⟩ := p
      dsimp only [okState]
      apply restoreArgs_lookup st.vars (toString i)
      · intro q hq
        obtain ⟨j, _, hj⟩ := List.mem_map.mp hq
        rw [← hj]
      · refine ⟨(toString (i - 1 + 1), st.vars (toString (i - 1 + 1))), ?_, ?_⟩
        · apply List.mem_map.mpr
          exact ⟨i - 1, List.mem_range.mpr (by omega), rfl⟩
        · have : i - 1 + 1 = i := by omega
          rw [this]

/-- C10: after `_handle_call` returns, exactly the positional variables of
this call's arity are restored to their pre-call values; positional
variables of larger index bound by an enclosing call stay visible, so a
nested call with fewer arguments lets the callee observe a stale `$3` from
the outer call — concretely, `call A p q r` where `A`'s body runs
`call B y` and `B` says `$3` outputs `say r`, and afterwards `$3` is
unbound again. -/
theorem C10_call_positional_frame :
    (∀ (exp : List String → IState → Except PyErr (List String × IState))
        (line : String) (st : IState) (name argsStr : String) (i : Nat),
        parseCall line = some (name, argsStr) →
        1 ≤ i → i ≤ (splitValues argsStr).length →
        (okState (handleCall exp line st) st).vars (toString i) =
          st.vars (toString i)) ∧
    (preprocess fsEmpty none
        ["def A", "call B y", "enddef", "def B", "say $3", "enddef",
         "call A p q r"] initState).toOption.map
      (fun p => (p.1, p.2.vars "3")) = some (["say r"], none) := by
  constructor
  · intro exp line st name argsStr i hparse h1 h2
    exact handleCall_restore exp line st name argsStr i hparse h1 h2
  · decide

/-- Witness for C10's universally quantified part, at a concrete call. -/
theorem C10_call_positional_frame_witness :
    (okState (handleCall (fun _ s => .ok ([], s)) "call f a b"
        { initState with subs := fun n => if n = "f" then some [] else none })
      { initState with subs := fun n => if n = "f" then some [] else none }).vars
        (toString 2) =
      ({ initState with
          subs := fun n => if n = "f" then some [] else none } : IState).vars
        (toString 2) :=
  C10_call_positional_frame.1 (fun _ s => .ok ([], s)) "call f a b"
    { initState with subs := fun n => if n = "f" then some [] else none }
    "f" "a b" 2 (by decide) (by decide) (by decide)

/-- C6 (amended): `_expand_variables` is *two* sequential `re.sub` passes —
`${name}` first, then `$name` on the first pass's output.  Within each pass
substituted text is not re-scanned (`re.sub` resumes after the replacement),
but text substituted by the brace pass *is* re-scanned by the dollar pass:
with `a ↦ "$b"` and `b ↦ w`, expanding `${a}` yields `str(w)`, while
expanding `$a` yields `$b` (the dollar pass's own output is final). -/
theorem C6_second_pass_rescans_first (vars : Store) (w : Value)
    (ha : vars "a" = some (.vStr "$b")) (hb : vars "b" = some w) :
    expandVariables vars "${a}" = pyStr w ∧
    expandVariables vars "$a" = "$b" := by
  have w1 : wordChar 'a' = true := by decide
  have w2 : wordChar 'b' = true := by decide
  have w3 : wordChar (Char.ofNat 125) = false := by decide
  constructor
  · show (⟨subDollar vars (subBrace vars ("${a}").data)⟩ : String) = pyStr w
    have h1 : subBrace vars ("${a}").data = '$' :: 'b' :: [] := by
      show subBraceAux vars .scan ['$', '{', 'a', '}'] = _
      simp [subBraceAux, w1, w3, lookupStr, ha, pyStr]
    rw [h1]
    show (⟨subDollarAux vars none ['$', 'b']⟩ : String) = pyStr w
    simp [subDollarAux, w2, lookupStr, hb]
  · show (⟨subDollar vars (subBrace vars ("$a").data)⟩ : String) = "$b"
    have h1 : subBrace vars ("$a").data = '$' :: 'a' :: [] := by
      show subBraceAux vars .scan ['$', 'a'] = _
      simp [subBraceAux]
    rw [h1]
    show (⟨subDollarAux vars none ['$', 'a']⟩ : String) = "$b"
    simp [subDollarAux, w1, lookupStr, ha, pyStr]

/-- Witness for C6 at the concrete store `a ↦ "$b"`, `b ↦ "x"`. -/
theorem C6_second_pass_rescans_first_witness :
    braceStore "a" = some (.vStr "$b") ∧
    braceStore "b" = some (.vStr "x") ∧
    (expandVariables braceStore "${a}" = pyStr (.vStr "x") ∧
     expandVariables braceStore "$a" = "$b") :=
  ⟨by decide, by decide,
    C6_second_pass_rescans_first braceStore (.vStr "x") (by decide) (by decide)⟩


/-! ### Helper lemmas: operator selection in `_evaluate_condition` -/

/-- `List.find?` decomposition: the found element splits the list, with the
predicate false on every earlier element. -/
theorem find?_decomp {α : Type} (p : α → Bool) :
    ∀ (l : List α) (a : α), l.find? p = some a →
      ∃ l1 l2, l = l1 ++ a :: l2 ∧ (∀ b ∈ l1, p b = false) ∧ p a = true
  | [], a => by intro h; simp [List.find?] at h
  | c :: t, a => by
    intro h
    cases hc : p c with
    | true =>
      rw [List.find?_cons_of_pos _ hc] at h
      injection h with h
      subst h
      exact ⟨[], t, rfl, by intro b hb; exact absurd hb (List.not_mem_nil b), hc⟩
    | false =>
      rw [List.find?_cons_of_neg _ (by simp [hc])] at h
      obtain ⟨l1, l2, he, hall, hpa⟩ := find?_decomp p t a h
      refine ⟨c :: l1, l2, by rw [he]; rfl, ?_, hpa⟩
      intro b hb
      rcases List.mem_cons.mp hb with hb | hb
      · rw [hb]; exact hc
      · exact hall b hb

/-- `str.split(op, 1)` finds a piece exactly when `op in s`. -/
theorem splitOnceChars_isSome (p : List Char) :
    ∀ l, (splitOnceChars p l).isSome = containsSub p l
  | [] => by
    simp only [splitOnceChars, containsSub]
    by_cases h : p.isEmpty <;> simp [h]
  | c :: t => by
    simp only [splitOnceChars, containsSub]
    by_cases h : p.isPrefixOf (c :: t)
    · simp [h]
    · simp [h, splitOnceChars_isSome p t]

/-- A successful `splitOnceChars` decomposes the list around the *first*
occurrence of the (non-empty) pattern. -/
theorem splitOnceChars_first (p : List Char) (hp : p ≠ []) :
    ∀ l a b, splitOnceChars p l = some (a, b) →
      l = a ++ p ++ b ∧ ∀ a' b', l = a' ++ p ++ b' → a.length ≤ a'.length
  | [] => by
    intro a b h
    rw [splitOnceChars, if_neg (by simp [hp])] at h
    exact absurd h (by simp)
  | c :: t => by
    intro a b h
    rw [splitOnceChars] at h
    by_cases hpre : p.isPrefixOf (c :: t)
    · rw [if_pos hpre] at h
      injection h with h
      injection h with h1 h2
      obtain ⟨u, hu⟩ := List.isPrefixOf_iff_prefix.mp hpre
      constructor
      · rw [← h1, ← h2, ← hu, List.nil_append, List.drop_left]
      · intro a' b' _; rw [← h1]; exact Nat.zero_le _
    · rw [if_neg hpre] at h
      rcases Option.map_eq_some'.mp h with ⟨⟨a0, b0⟩, hq, hab⟩
      obtain ⟨ht, hmin⟩ := splitOnceChars_first p hp t a0 b0 hq
      injection hab with h1 h2
      constructor
      · rw [← h1, ← h2, List.cons_append, List.cons_append, ← ht]
      · intro a' b' he
        match a', he with
        | [], he =>
          exact absurd (List.isPrefixOf_iff_prefix.mpr ⟨b', by rw [he]; rfl⟩) hpre
        | c' :: a'', he =>
          have ht' : t = a'' ++ p ++ b' := by
            injection he
          have := hmin a'' b' ht'
          rw [← h1]
          simpa using Nat.succ_le_succ this

/-- Running the operator loop on `l1 ++ op :: l2` when no operator of `l1`
occurs in the condition but `op` does: the loop stops at `op` and compares
the two halves of the first `op`-split. -/
theorem tryOps_hit (vars : Store) :
    ∀ (l1 l2 : List String) (op c : String),
      (∀ op' ∈ l1, pyContains c op' = false) → pyContains c op = true →
      ∃ lhs rhs, pySplitOnce c op = some (lhs, rhs) ∧
        tryOps vars (l1 ++ op :: l2) c = compareSides vars op lhs rhs
  | [], l2, op, c => by
    intro _ hop
    have hs : (splitOnceChars op.data c.data).isSome = true := by
      rw [splitOnceChars_isSome]; exact hop
    rcases Option.isSome_iff_exists.mp hs with ⟨⟨a, b⟩, hq⟩
    refine ⟨⟨a⟩, ⟨b⟩, by simp [pySplitOnce, hq], ?_⟩
    simp [tryOps, pySplitOnce, hq]
  | o :: l1, l2, op, c => by
    intro hall hop
    have ho : containsSub o.data c.data = false :=
      hall o (List.mem_cons_self o l1)
    have hn : splitOnceChars o.data c.data = none := by
      cases hsp : splitOnceChars o.data c.data with
      | none => rfl
      | some q =>
        have := splitOnceChars_isSome o.data c.data
        rw [hsp, ho] at this
        exact absurd this (by simp)
    obtain ⟨lhs, rhs, hps, heval⟩ :=
      tryOps_hit vars l1 l2 op c (fun b hb => hall b (List.mem_cons_of_mem o hb))
        hop
    refine ⟨lhs, rhs, hps, ?_⟩
    rw [List.cons_append, tryOps]
    simp [pySplitOnce, hn, heval]


/-- C7 (amended): the operator that splits a condition is chosen by
*priority*, not by leftmost position: `_evaluate_condition` walks the fixed
list `== != >= <= > <` and takes the first member that occurs *anywhere* in
the variable-expanded condition (so `==` beats an earlier `<`, refuting the
leftmost reading — see `C7_priority_beats_position`); the condition is then
split at the first occurrence of that chosen operator, and the two halves
are stripped, expression-evaluated, converted and compared. -/
theorem C7_operator_priority (vars : Store) (cond op : String)
    (h : condOp (expandVariables vars cond) = some op) :
    (∃ l1 l2, condOps = l1 ++ op :: l2 ∧
      (∀ op' ∈ l1, pyContains (expandVariables vars cond) op' = false) ∧
      pyContains (expandVariables vars cond) op = true) ∧
    ∃ lhs rhs,
      pySplitOnce (expandVariables vars cond) op = some (lhs, rhs) ∧
      (expandVariables vars cond).data = lhs.data ++ op.data ++ rhs.data ∧
      (∀ a' b', (expandVariables vars cond).data = a' ++ op.data ++ b' →
        lhs.data.length ≤ a'.length) ∧
      evalCondition vars cond = compareSides vars op lhs rhs := by
  obtain ⟨l1, l2, hsplit, hall, hop⟩ :=
    find?_decomp (fun o => pyContains (expandVariables vars cond) o) condOps op h
  have hmem : op ∈ condOps := by
    rw [hsplit]; exact List.mem_append_right l1 (List.mem_cons_self op l2)
  have hne : op.data ≠ [] := by
    fin_cases hmem <;> simp
  obtain ⟨lhs, rhs, hps, heval⟩ :=
    tryOps_hit vars l1 l2 op (expandVariables vars cond) hall hop
  refine ⟨⟨l1, l2, hsplit, hall, hop⟩, lhs, rhs, hps, ?_⟩
  have hq : splitOnceChars op.data (expandVariables vars cond).data =
      some (lhs.data, rhs.data) := by
    rcases Option.map_eq_some'.mp hps with ⟨⟨a, b⟩, hq0, hlr⟩
    injection hlr with hl hr
    rw [hq0, ← hl, ← hr]
  obtain ⟨hdec, hmin⟩ :=
    splitOnceChars_first op.data hne (expandVariables vars cond).data
      lhs.data rhs.data hq
  refine ⟨hdec, hmin, ?_⟩
  rw [evalCondition, hsplit]
  exact heval

/-- Witness for C7 at the claim's own condition `1<2 == 3` (no variables):
the chosen operator is `==`. -/
theorem C7_operator_priority_witness :
    condOp (expandVariables Store.empty "1<2 == 3") = some "==" ∧
    ((∃ l1 l2, condOps = l1 ++ "==" :: l2 ∧
      (∀ op' ∈ l1, pyContains (expandVariables Store.empty "1<2 == 3") op' =
        false) ∧
      pyContains (expandVariables Store.empty "1<2 == 3") "==" = true) ∧
    ∃ lhs rhs,
      pySplitOnce (expandVariables Store.empty "1<2 == 3") "==" =
        some (lhs, rhs) ∧
      (expandVariables Store.empty "1<2 == 3").data =
        lhs.data ++ ("==").data ++ rhs.data ∧
      (∀ a' b',
        (expandVariables Store.empty "1<2 == 3").data =
          a' ++ ("==").data ++ b' →
        lhs.data.length ≤ a'.length) ∧
      evalCondition Store.empty "1<2 == 3" =
        compareSides Store.empty "==" lhs rhs) :=
  ⟨by decide, C7_operator_priority Store.empty "1<2 == 3" "==" (by decide)⟩


/-- The parse-all loop of `main` aborts with an offending line whenever any
raw line raises a `ValueError` in `parse_command`. -/
theorem parseAll_error :
    ∀ raw : List String, (∃ c ∈ raw, ∃ m, parseCommand c = .error m) →
      ∃ bad msg, parseAll raw = .error (bad, msg) ∧ bad ∈ raw ∧
        parseCommand bad = .error msg
  | [] => by rintro ⟨c, hc, _⟩; exact absurd hc (List.not_mem_nil c)
  | c :: t => by
    rintro ⟨d, hd, m, hm⟩
    cases hp : parseCommand c with
    | error e =>
      exact ⟨c, e, by simp [parseAll, hp], List.mem_cons_self c t, hp⟩
    | ok p =>
      have hdt : d ∈ t := by
        rcases List.mem_cons.mp hd with h | h
        · rw [h, hp] at hm; exact absurd hm (by simp)
        · exact h
      obtain ⟨bad, msg, he, hmem, hpc⟩ := parseAll_error t ⟨d, hdt, m, hm⟩
      exact ⟨bad, msg, by simp [parseAll, hp, he],
        List.mem_cons_of_mem c hmem, hpc⟩

/-- C9: if any raw command line (CLI word or fully expanded script line)
fails `parse_command` validation — unknown command, wrong arity, unknown
option — `main` prints the error and returns 1 on some offending raw line,
before `needs_connection` is computed, before any robot connection is
attempted and before any command executes. -/
theorem C9_parse_failure_preempts_execution (raw : List String)
    (h : ∃ c ∈ raw, ∃ m, parseCommand c = .error m) :
    ∃ bad msg, mainRun raw = .parseFailure bad msg ∧ bad ∈ raw ∧
      parseCommand bad = .error msg := by
  obtain ⟨bad, msg, he, hmem, hpc⟩ := parseAll_error raw h
  exact ⟨bad, msg, by simp [mainRun, he], hmem, hpc⟩

/-- Witness for C9: a late unknown command aborts the whole run. -/
theorem C9_parse_failure_preempts_execution_witness :
    (∃ c ∈ ["say hi", "frobnicate"], ∃ m, parseCommand c = .error m) ∧
    ∃ bad msg, mainRun ["say hi", "frobnicate"] = .parseFailure bad msg ∧
      bad ∈ ["say hi", "frobnicate"] ∧ parseCommand bad = .error msg :=
  ⟨⟨"frobnicate", by decide, "Unknown command: frobnicate", by decide⟩,
    C9_parse_failure_preempts_execution ["say hi", "frobnicate"]
      ⟨"frobnicate", by decide, "Unknown command: frobnicate", by decide⟩⟩


end Cozmo
